import Mathlib

/-!
Verification of the tracker-store core of the SURF application website
(single-page summer-research-application tracker).

The development has two layers.

* A typed embedding of the store (`Project`, `Outreach`, `MaterialTask`,
  `Decision`, `Store`) and of the operations `normalizeStore`,
  `updateMaterialStore` (the store transform inside `updateMaterial`),
  `deleteProjectStore` (the store transform inside `deleteProject`),
  `clamp01_10`, `csvEscape` and the Projects CSV row builder.  It mirrors
  `src/App.tsx` on well-typed documents: dynamic `Array.isArray` guards,
  which are identically true on typed values, disappear; every reference
  field keeps the exact filtering / repair / pruning choreography of the
  source, including the JavaScript `Map` semantics (a duplicated id keys
  the last entry) modelled by `updateLast`, and the JavaScript `Set`
  insertion-order deduplication modelled by `jsDedup`.  The two
  non-deterministic inputs of the source (the freshly generated seed
  document and the current timestamp) are passed as parameters
  `base`/`now`.

* An untyped embedding (`JSValue`, `normalizeStoreJS`, `loadStoreJS`,
  `seedJS`) of the same routines on arbitrary JavaScript values, with
  `Except Unit` tracking thrown TypeErrors (property access on
  `null`/`undefined`).  Object identity cannot be represented in a
  structural model, so SameValueZero on objects/arrays is conservatively
  modelled as false (JavaScript compares them by reference); JavaScript
  number-to-string rendering is approximated by an exact rational
  rendering.  Neither approximation is observable by any theorem below.
-/

set_option maxHeartbeats 1000000

/-- Entity ids are JavaScript strings. -/
abbrev ID := String

/-- The sentinel target value meaning a material task is unassigned
(source literal "通用"). -/
def unassigned : String := "通用"

/-- A research-program application candidacy (type `Project` in the source).
Scores are JavaScript numbers; on the typed layer they are modelled as exact
rationals. -/
structure Project where
  id : ID
  projectId : String
  name : String
  institution : String
  region : String
  type : String
  officialLink : String
  keywords : List String
  piLab : String
  needsOutreach : String
  round : String
  ddl : String
  period : String
  funding : List String
  eligibility : String
  materials : List String
  portalStatus : String
  status : String
  fit : ℚ
  risk : ℚ
  roi : ℚ
  priority : String
  decision : String
  nextAction : String
  nextActionDate : String
  outreachIds : List ID
  materialTaskIds : List ID
  notes : String
deriving DecidableEq, Repr

/-- A tracked PI contact (type `Outreach` in the source). -/
structure Outreach where
  id : ID
  outreachId : String
  piName : String
  institution : String
  directions : List String
  contact : String
  firstContact : String
  emailVersion : String
  replied : String
  replyDate : String
  replySummary : String
  stage : String
  nextFollowUp : String
  nextAction : String
  projectIds : List ID
  notes : String
  threadId : Option String
deriving DecidableEq, Repr

/-- A unit of application-deliverable work (type `MaterialTask` in the source). -/
structure MaterialTask where
  id : ID
  taskId : String
  type : String
  targetProject : String
  status : String
  version : String
  due : String
  dependency : String
  link : String
  fileName : Option String
  fileLastModified : Option String
  notes : String
deriving DecidableEq, Repr

/-- A one-per-project rationale card (type `Decision` in the source). -/
structure Decision where
  id : ID
  projectInternalId : ID
  conclusion : String
  priority : String
  whyApply : String
  risks : String
  fitEvidence : String
  strategy : String
  postResult : String
  timeline : String
  worked : String
  didnt : String
  improvements : String
  takeaways : String
deriving DecidableEq, Repr

/-- Document metadata (`meta` in the source). -/
structure StoreMeta where
  version : Nat
  createdAt : String
  updatedAt : String
deriving DecidableEq, Repr

/-- The whole persisted document (`Store` in the source). -/
structure Store where
  projects : List Project
  outreach : List Outreach
  materials : List MaterialTask
  decisions : List Decision
  meta : StoreMeta
deriving DecidableEq, Repr

/-- `String(x || y)` on two strings: JavaScript `||` picks `y` exactly when
`x` is the empty string (the only falsy string). -/
def jsOr (x y : String) : String := if x = "" then y else x

/-- Worker for `jsDedup`: JavaScript `Set` iteration order is insertion
order with the first occurrence of a duplicate winning. -/
def jsDedupGo (seen : List String) : List String → List String
  | [] => []
  | x :: xs => if x ∈ seen then jsDedupGo seen xs else x :: jsDedupGo (x :: seen) xs

/-- `Array.from(new Set(l))`: deduplicate keeping the first occurrence of
each element, in order. -/
def jsDedup (l : List String) : List String := jsDedupGo [] l

/-- `Array.from(new Set([...l, x]))`, the union idiom used by the source
when adding a back-reference id. -/
def addToSet (l : List String) (x : String) : List String := jsDedup (l ++ [x])

/-- Apply `f` to the LAST element of `ps` whose `id` is `k`, leaving the
rest unchanged.  This is exactly what the source's mutation through
`projById.get(k)` does: `new Map(list.map(p => [p.id, p]))` keeps the last
entry for a duplicated key, and the mutated object is shared with the
array. If no element matches (`if (!p) continue`), the list is unchanged. -/
def updateLast (ps : List Project) (k : String) (f : Project → Project) : List Project :=
  match ps with
  | [] => []
  | p :: rest =>
    if rest.any (fun q => q.id == k) then p :: updateLast rest k f
    else if p.id == k then f p :: rest
    else p :: updateLast rest k f

/-- The project that `projById.get(k)` would return: the last element of
`ps` whose id is `k`, if any. -/
def lastMatch? (ps : List Project) (k : String) : Option Project :=
  match ps with
  | [] => none
  | p :: rest =>
    if rest.any (fun q => q.id == k) then lastMatch? rest k
    else if p.id == k then some p
    else lastMatch? rest k

/-- Step 5 body: ensure project `p` lists outreach id `oid`
(`if (!p.outreachIds.includes(o.id)) p.outreachIds = Array.from(new Set([...p.outreachIds, o.id]))`). -/
def outreachAdd (oid : String) (p : Project) : Project :=
  if oid ∈ p.outreachIds then p
  else { p with outreachIds := addToSet p.outreachIds oid }

/-- Step 6 body: ensure project `p` lists material id `mid`. -/
def materialAdd (mid : String) (p : Project) : Project :=
  if mid ∈ p.materialTaskIds then p
  else { p with materialTaskIds := addToSet p.materialTaskIds mid }

/-- Inner loop of step 5: for one outreach record with id `oid`, walk its
(already filtered) `projectIds` and repair each referenced project. -/
def innerRepair (oid : String) (pids : List String) (ps : List Project) : List Project :=
  pids.foldl (fun acc pid => updateLast acc pid (outreachAdd oid)) ps

/-- Step 5 of `normalizeStore`: forward-repair pass Outreach → Project. -/
def repairOutreachLinks (ps : List Project) (os : List Outreach) : List Project :=
  os.foldl (fun acc o => innerRepair o.id o.projectIds acc) ps

/-- Step 6 of `normalizeStore`: forward-repair pass Material → Project. -/
def repairMaterialLinks (ps : List Project) (ms : List MaterialTask) : List Project :=
  ms.foldl
    (fun acc m =>
      if m.targetProject = unassigned then acc
      else updateLast acc m.targetProject (materialAdd m.id))
    ps

/-- Step 2 of `normalizeStore`: per-project filtering of the two
back-reference arrays to known entity ids (the `keywords` / `funding` /
`materials` array coercions are identities on typed input). -/
def filterProjectRefs (outreachIds materialIds : List String) (ps : List Project) : List Project :=
  ps.map (fun p =>
    { p with
      outreachIds := p.outreachIds.filter (fun x => decide (x ∈ outreachIds)),
      materialTaskIds := p.materialTaskIds.filter (fun x => decide (x ∈ materialIds)) })

/-- Step 3 of `normalizeStore`: per-outreach filtering of `projectIds`. -/
def filterOutreachRefs (projectIds : List String) (os : List Outreach) : List Outreach :=
  os.map (fun o =>
    { o with projectIds := o.projectIds.filter (fun x => decide (x ∈ projectIds)) })

/-- Step 4 of `normalizeStore`: force an unknown material target to the
"unassigned" sentinel. -/
def filterMaterialTargets (projectIds : List String) (ms : List MaterialTask) : List MaterialTask :=
  ms.map (fun m =>
    { m with
      targetProject :=
        if m.targetProject = unassigned ∨ m.targetProject ∈ projectIds then m.targetProject
        else unassigned })

/-- Step 7 of `normalizeStore`: final re-prune of every project's
`outreachIds`. -/
def pruneOutreachIds (outreachIds : List String) (ps : List Project) : List Project :=
  ps.map (fun p =>
    { p with outreachIds := p.outreachIds.filter (fun x => decide (x ∈ outreachIds)) })

/-- Step 8 of `normalizeStore`: keep decisions owned by existing projects
(`postResult ?? ""` is the identity on typed input, kept as the map). -/
def filterDecisions (projectIds : List String) (ds : List Decision) : List Decision :=
  (ds.filter (fun d => decide ((d.projectInternalId : String) ∈ projectIds))).map
    (fun d => { d with postResult := d.postResult })

/-- `normalizeStore` from `src/App.tsx` (lines 492-579) on a well-typed
document.  `base` is the freshly generated `seed()` document and `now` the
`new Date().toISOString()` value, both non-deterministic in the source and
therefore passed as parameters.  On typed input every `Array.isArray`
test is true, so the wholesale collection fallbacks to `base` and the
coercions of malformed per-entity arrays to `[]` vanish; the untyped layer
below keeps them. -/
def normalizeStore (base : Store) (now : String) (input : Store) : Store :=
  let createdAt := jsOr input.meta.createdAt base.meta.createdAt
  let projectIds := input.projects.map (fun p => p.id)
  let outreachIds := input.outreach.map (fun o => o.id)
  let materialIds := input.materials.map (fun m => m.id)
  let nextProjects := filterProjectRefs outreachIds materialIds input.projects
  let nextOutreach := filterOutreachRefs projectIds input.outreach
  let nextMaterials := filterMaterialTargets projectIds input.materials
  let ps1 := repairOutreachLinks nextProjects nextOutreach
  let ps2 := repairMaterialLinks ps1 nextMaterials
  let ps3 := pruneOutreachIds outreachIds ps2
  let nextDecisions := filterDecisions projectIds input.decisions
  { projects := ps3
    outreach := nextOutreach
    materials := nextMaterials
    decisions := nextDecisions
    meta := { version := 1, createdAt := createdAt, updatedAt := now } }

/-- A `Partial<MaterialTask>` patch: `none` models an absent (or explicitly
`undefined`) key, which `{...m, ...patch}` leaves untouched and which the
`patch.targetProject !== undefined` guard skips. -/
structure MaterialPatch where
  id : Option ID := none
  taskId : Option String := none
  type : Option String := none
  targetProject : Option String := none
  status : Option String := none
  version : Option String := none
  due : Option String := none
  dependency : Option String := none
  link : Option String := none
  fileName : Option (Option String) := none
  fileLastModified : Option (Option String) := none
  notes : Option String := none
deriving DecidableEq, Repr

/-- `{...m, ...patch}` for material tasks. -/
def applyMaterialPatch (m : MaterialTask) (patch : MaterialPatch) : MaterialTask :=
  { id := patch.id.getD m.id
    taskId := patch.taskId.getD m.taskId
    type := patch.type.getD m.type
    targetProject := patch.targetProject.getD m.targetProject
    status := patch.status.getD m.status
    version := patch.version.getD m.version
    due := patch.due.getD m.due
    dependency := patch.dependency.getD m.dependency
    link := patch.link.getD m.link
    fileName := patch.fileName.getD m.fileName
    fileLastModified := patch.fileLastModified.getD m.fileLastModified
    notes := patch.notes.getD m.notes }

/-- The per-project update of `materialTaskIds` inside `updateMaterial`:
drop the task id from the old target project, union it into the new one. -/
def updTaskIds (id oldTarget newTarget : String) (p : Project) : List String :=
  let ids := p.materialTaskIds
  let ids := if oldTarget ≠ unassigned ∧ p.id = oldTarget
             then ids.filter (fun mid => !(mid == id)) else ids
  if newTarget ≠ unassigned ∧ p.id = newTarget then addToSet ids id else ids

/-- The body of `updateMaterial`'s store transform once the material with
the given id has been found. -/
def updateMaterialGo (base : Store) (now : String) (s : Store) (id : ID)
    (patch : MaterialPatch) (current : MaterialTask) : Store :=
  normalizeStore base now
    { s with
      materials := s.materials.map (fun m =>
        if m.id == id then applyMaterialPatch m patch else m),
      projects :=
        if patch.targetProject.getD current.targetProject ≠ current.targetProject then
          s.projects.map (fun p =>
            { p with
              materialTaskIds := updTaskIds id current.targetProject
                (patch.targetProject.getD current.targetProject) p })
        else s.projects }

/-- The store transform inside `updateMaterial` (`src/App.tsx` lines
1281-1301): the function passed to `setStore`.  The source's identity
shortcut `ids === p.materialTaskIds ? p : {...}` only avoids an object
copy and is invisible structurally. -/
def updateMaterialStore (base : Store) (now : String) (s : Store) (id : ID)
    (patch : MaterialPatch) : Store :=
  match s.materials.find? (fun m => m.id == id) with
  | none => s
  | some current => updateMaterialGo base now s id patch current

/-- The store transform inside `deleteProject` (`src/App.tsx` lines
1105-1118): the function passed to `setStore`. -/
def deleteProjectStore (base : Store) (now : String) (s : Store) (id : ID) : Store :=
  normalizeStore base now
    { s with
      projects := s.projects.filter (fun p => !(p.id == id))
      decisions := s.decisions.filter (fun d => !(d.projectInternalId == id))
      outreach := s.outreach.map (fun o =>
        { o with projectIds := o.projectIds.filter (fun pid => !(pid == id)) })
      materials := s.materials.map (fun m =>
        if m.targetProject == id then { m with targetProject := unassigned } else m) }

/-- The ids of a store's outreach records. -/
def outIds (s : Store) : List String := s.outreach.map (fun o => o.id)

/-- The ids of a store's material tasks. -/
def matIds (s : Store) : List String := s.materials.map (fun m => m.id)

/-- The ids of a store's projects. -/
def projIds (s : Store) : List String := s.projects.map (fun p => p.id)

/-- "The outreach record with this id is recorded in the project that a
`projById.get` lookup for `pid` would return."  The invariant established
by the step-5 repair pass. -/
def OutreachLinked (oid pid : String) (ps : List Project) : Prop :=
  ∀ p, lastMatch? ps pid = some p → oid ∈ p.outreachIds

/-- Material counterpart of `OutreachLinked`, established by step 6. -/
def MaterialLinked (mid tgt : String) (ps : List Project) : Prop :=
  ∀ p, lastMatch? ps tgt = some p → mid ∈ p.materialTaskIds

/-- A JavaScript number: either a finite value (modelled as an exact
rational) or one of the non-finite values. -/
inductive JSNum where
  | fin : ℚ → JSNum
  | nan : JSNum
  | inf : JSNum
  | ninf : JSNum
deriving DecidableEq, Repr

/-- `Math.round`: round half toward positive infinity. -/
def jsRound (x : ℚ) : ℤ := ⌊x + 1/2⌋

/-- `Math.max` on two finite numbers. -/
def jsMax (a b : ℚ) : ℚ := if a ≤ b then b else a

/-- `Math.min` on two finite numbers. -/
def jsMin (a b : ℚ) : ℚ := if a ≤ b then a else b

/-- `clamp01_10` from `src/App.tsx` lines 299-302:
`if (!Number.isFinite(n)) return 0; return Math.max(0, Math.min(10, Math.round(n*10)/10))`. -/
def clamp01_10 : JSNum → ℚ
  | JSNum.fin q => jsMax 0 (jsMin 10 ((jsRound (q * 10) : ℚ) / 10))
  | _ => 0

/-- `String(n)` for a JavaScript number, exact for integral values (the
only values any theorem below evaluates it at); non-integral rationals are
rendered as a fraction, approximating the JS decimal rendering. -/
def ratToString (q : ℚ) : String :=
  if q.den = 1 then toString q.num else toString q.num ++ "/" ++ toString q.den

/-- `csvEscape` from `src/App.tsx` lines 304-308.  The regex test
`/[",\n]/` and the global replacement of each quote by two quotes are
modelled over the string's character list. -/
def csvEscape (v : String) : String :=
  let needs := v.data.any (fun c => c == ',' || c == '"' || c == '\n')
  let vv := String.mk (v.data.foldr
    (fun c acc => if c == '"' then '"' :: '"' :: acc else c :: acc) [])
  if needs then "\"" ++ vv ++ "\"" else vv

/-- The raw 16-entry row built for one project by `exportProjectsCSV`
(`src/App.tsx` lines 943-960); score fields are stringified here, before
the `String(x || "")` pass. -/
def projectCsvRow (p : Project) : List String :=
  [p.projectId, p.name, p.institution, p.region, p.type, p.ddl,
   String.intercalate ";" p.funding, p.status, ratToString p.fit, ratToString p.risk,
   ratToString p.roi, p.priority, p.decision, p.nextAction, p.nextActionDate, p.officialLink]

/-- The fixed header row of the Projects CSV export. -/
def csvHeaders : List String :=
  ["ProjectID", "Name", "Institution", "Region", "Type", "DDL", "Funding", "Status",
   "Fit", "Risk", "ROI", "Priority", "Decision", "NextAction", "NextActionDate", "OfficialLink"]

/-- `String(x || "")` applied to a cell that is already a string. -/
def jsOrEmptyString (x : String) : String := if x = "" then "" else x

/-- One serialized CSV cell: `csvEscape(String(x || ""))`. -/
def csvCell (x : String) : String := csvEscape (jsOrEmptyString x)

/-- The full Projects CSV text (`src/App.tsx` lines 962-964). -/
def exportProjectsCSV (ps : List Project) : String :=
  String.intercalate "\n"
    ((csvHeaders :: ps.map projectCsvRow).map (fun r => String.intercalate "," (r.map csvCell)))

/-- An arbitrary JavaScript value (the argument type of the source's
`normalizeStore(input: any)`). -/
inductive JSValue where
  | null : JSValue
  | undef : JSValue
  | bool : Bool → JSValue
  | num : JSNum → JSValue
  | str : String → JSValue
  | arr : List JSValue → JSValue
  | obj : List (String × JSValue) → JSValue
deriving Repr

/-- Property lookup in an object literal: a later duplicate key wins. -/
def lookupField (fields : List (String × JSValue)) (k : String) : Option JSValue :=
  ((fields.filter (fun kv => kv.1 == k)).getLast?).map (fun kv => kv.2)

/-- `v[k]` property access.  Throws (TypeError) on `null`/`undefined`,
yields `undefined` for a missing property and on primitives. -/
def getField : JSValue → String → Except Unit JSValue
  | JSValue.null, _ => Except.error ()
  | JSValue.undef, _ => Except.error ()
  | JSValue.obj fields, k => Except.ok ((lookupField fields k).getD JSValue.undef)
  | _, _ => Except.ok JSValue.undef

/-- `v?.k` optional-chained access: never throws. -/
def getFieldOpt (v : JSValue) (k : String) : JSValue :=
  match getField v k with
  | Except.ok w => w
  | Except.error _ => JSValue.undef

/-- `Array.isArray`. -/
def isArr : JSValue → Bool
  | JSValue.arr _ => true
  | _ => false

/-- Calling an array method (`.map`, `.filter`) on a value: throws unless
it is an array. -/
def getArray : JSValue → Except Unit (List JSValue)
  | JSValue.arr l => Except.ok l
  | _ => Except.error ()

/-- The element list of a value known (or defaulted) to be an array. -/
def asArrD : JSValue → List JSValue
  | JSValue.arr l => l
  | _ => []

/-- JavaScript truthiness. -/
def truthy : JSValue → Bool
  | JSValue.null => false
  | JSValue.undef => false
  | JSValue.bool b => b
  | JSValue.num (JSNum.fin q) => !(q == 0)
  | JSValue.num JSNum.nan => false
  | JSValue.num _ => true
  | JSValue.str s => !(s == "")
  | JSValue.arr _ => true
  | JSValue.obj _ => true

/-- `String(n)` for a JavaScript number. -/
def jsNumToString : JSNum → String
  | JSNum.nan => "NaN"
  | JSNum.inf => "Infinity"
  | JSNum.ninf => "-Infinity"
  | JSNum.fin q => ratToString q

/-- Rendering of one array element inside Array#toString; JavaScript
recurses into nested arrays, modelled here to depth one (no theorem below
observes deeper nesting). -/
def jsElemToString : JSValue → String
  | JSValue.null => ""
  | JSValue.undef => ""
  | JSValue.bool b => cond b "true" "false"
  | JSValue.num n => jsNumToString n
  | JSValue.str s => s
  | JSValue.arr _ => ""
  | JSValue.obj _ => "[object Object]"

/-- `String(v)`. -/
def jsToString : JSValue → String
  | JSValue.arr l => String.intercalate "," (l.map jsElemToString)
  | v => jsElemToString v

/-- SameValueZero on numbers: `NaN` equals `NaN`. -/
def numSVZ : JSNum → JSNum → Bool
  | JSNum.nan, JSNum.nan => true
  | JSNum.fin a, JSNum.fin b => a == b
  | JSNum.inf, JSNum.inf => true
  | JSNum.ninf, JSNum.ninf => true
  | _, _ => false

/-- SameValueZero (the equality of `Set#has`, `Map` keys and
`Array#includes`).  JavaScript compares arrays and objects by reference;
a structural model cannot represent references, so they are conservatively
never equal here — no theorem below compares non-primitive ids. -/
def jsSVZ : JSValue → JSValue → Bool
  | JSValue.null, JSValue.null => true
  | JSValue.undef, JSValue.undef => true
  | JSValue.bool a, JSValue.bool b => a == b
  | JSValue.num a, JSValue.num b => numSVZ a b
  | JSValue.str a, JSValue.str b => a == b
  | _, _ => false

/-- `new Set(l).has(x)`. -/
def jsHas (l : List JSValue) (x : JSValue) : Bool := l.any (fun y => jsSVZ y x)

/-- `v === s` for a string literal `s`. -/
def jsIsStr (v : JSValue) (s : String) : Bool :=
  match v with
  | JSValue.str t => t == s
  | _ => false

/-- The own enumerable properties copied by an object spread `{...v}`:
objects give their fields, arrays and strings their indexed elements,
primitives nothing. -/
def spreadFields : JSValue → List (String × JSValue)
  | JSValue.obj f => f
  | JSValue.arr l => l.enum.map (fun iv => (toString iv.1, iv.2))
  | JSValue.str s => s.toList.enum.map (fun ic => (toString ic.1, JSValue.str (String.singleton ic.2)))
  | _ => []

/-- Setting one key in an object literal (`{...fields, k: v}`): the
override wins on lookup; key order is not observed by any theorem. -/
def setField (fields : List (String × JSValue)) (k : String) (v : JSValue) : List (String × JSValue) :=
  fields.filter (fun kv => !(kv.1 == k)) ++ [(k, v)]

/-- Worker for `jsDedupJS` (Set insertion order, SameValueZero). -/
def jsDedupJSGo (seen : List JSValue) : List JSValue → List JSValue
  | [] => []
  | x :: xs =>
    if seen.any (fun y => jsSVZ y x) then jsDedupJSGo seen xs
    else x :: jsDedupJSGo (x :: seen) xs

/-- `Array.from(new Set(l))` on JavaScript values. -/
def jsDedupJS (l : List JSValue) : List JSValue := jsDedupJSGo [] l

/-- Untyped version of the repair-step body: ensure object `p` lists `x`
in its `field` array (`includes` check, then Set union). -/
def addLinkJS (field : String) (x : JSValue) (p : JSValue) : JSValue :=
  let ids := asArrD (getFieldOpt p field)
  if ids.any (fun y => jsSVZ y x) then p
  else JSValue.obj (setField (spreadFields p) field (JSValue.arr (jsDedupJS (ids ++ [x]))))

/-- Untyped version of `updateLast`: mutation through
`new Map(list.map(p => [p.id, p]))`, SameValueZero keys, last entry wins. -/
def updateLastJS (ps : List JSValue) (k : JSValue) (f : JSValue → JSValue) : List JSValue :=
  match ps with
  | [] => []
  | p :: rest =>
    if rest.any (fun q => jsSVZ (getFieldOpt q "id") k) then p :: updateLastJS rest k f
    else if jsSVZ (getFieldOpt p "id") k then f p :: rest
    else p :: updateLastJS rest k f

/-- The effective collection `Array.isArray(input?.name) ? input.name :
base.name` that `normalizeStore` iterates. -/
def effColl (base input : JSValue) (name : String) : JSValue :=
  if isArr (getFieldOpt input name) then getFieldOpt input name else getFieldOpt base name

/-- Step-2 body of the untyped `normalizeStore` for one project element:
five property reads (each can throw on `null`/`undefined`), then the
object spread with coerced arrays and filtered reference lists. -/
def projStep (oids mids : List JSValue) (p : JSValue) : Except Unit JSValue :=
  Except.bind (getField p "keywords") (fun kw =>
  Except.bind (getField p "funding") (fun fd =>
  Except.bind (getField p "materials") (fun mt =>
  Except.bind (getField p "outreachIds") (fun oi =>
  Except.bind (getField p "materialTaskIds") (fun mi =>
  Except.ok (JSValue.obj (setField (setField (setField (setField (setField (spreadFields p)
    "keywords" (if isArr kw then kw else JSValue.arr []))
    "funding" (if isArr fd then fd else JSValue.arr []))
    "materials" (if isArr mt then mt else JSValue.arr []))
    "outreachIds" (JSValue.arr
      (if isArr oi then (asArrD oi).filter (fun x => jsHas oids x) else [])))
    "materialTaskIds" (JSValue.arr
      (if isArr mi then (asArrD mi).filter (fun x => jsHas mids x) else [])))))))))

/-- Step-3 body of the untyped `normalizeStore` for one outreach element. -/
def outStep (pids : List JSValue) (o : JSValue) : Except Unit JSValue :=
  Except.bind (getField o "directions") (fun dir =>
  Except.bind (getField o "projectIds") (fun pj =>
  Except.ok (JSValue.obj (setField (setField (spreadFields o)
    "directions" (if isArr dir then dir else JSValue.arr []))
    "projectIds" (JSValue.arr
      (if isArr pj then (asArrD pj).filter (fun x => jsHas pids x) else []))))))

/-- Step-4 body of the untyped `normalizeStore` for one material element. -/
def matStep (pids : List JSValue) (m : JSValue) : Except Unit JSValue :=
  Except.bind (getField m "targetProject") (fun tp =>
  Except.ok (JSValue.obj (setField (spreadFields m)
    "targetProject" (if jsIsStr tp "通用" || jsHas pids tp then tp else JSValue.str "通用"))))

/-- The pure tail of the untyped `normalizeStore` (steps 5-9): the two
repair loops, the final prune, the decision filter and the assembled
document. -/
def normalizeAssembleJS (now createdAt : String) (pids oids : List JSValue)
    (nextProjects nextOutreach nextMaterials sDecisions : List JSValue) : JSValue :=
  let ps1 := nextOutreach.foldl (fun acc o =>
    (asArrD (getFieldOpt o "projectIds")).foldl (fun acc2 pid =>
      updateLastJS acc2 pid (addLinkJS "outreachIds" (getFieldOpt o "id"))) acc) nextProjects
  let ps2 := nextMaterials.foldl (fun acc m =>
    if jsIsStr (getFieldOpt m "targetProject") "通用" then acc
    else updateLastJS acc (getFieldOpt m "targetProject")
      (addLinkJS "materialTaskIds" (getFieldOpt m "id"))) ps1
  let ps3 := ps2.map (fun p => JSValue.obj (setField (spreadFields p)
    "outreachIds" (JSValue.arr
      ((asArrD (getFieldOpt p "outreachIds")).filter (fun x => jsHas oids x)))))
  let nextDecisions :=
    (sDecisions.filter (fun d => jsHas pids (getFieldOpt d "projectInternalId"))).map
      (fun d => JSValue.obj (setField (spreadFields d) "postResult"
        (match getFieldOpt d "postResult" with
         | JSValue.null => JSValue.str ""
         | JSValue.undef => JSValue.str ""
         | v => v)))
  JSValue.obj
    [("projects", JSValue.arr ps3),
     ("outreach", JSValue.arr nextOutreach),
     ("materials", JSValue.arr nextMaterials),
     ("decisions", JSValue.arr nextDecisions),
     ("meta", JSValue.obj
       [("version", JSValue.num (JSNum.fin 1)),
        ("createdAt", JSValue.str createdAt),
        ("updatedAt", JSValue.str now)])]

/-- `normalizeStore` from `src/App.tsx` (lines 492-579) on an arbitrary
JavaScript value, with `Except Unit` tracking thrown TypeErrors.  `base`
is the freshly generated `seed()` document and `now` the current ISO
timestamp; the throwing statements are sequenced with `Except.bind` in
source order. -/
def normalizeStoreJS (base : JSValue) (now : String) (input : JSValue) : Except Unit JSValue :=
  Except.bind (getArray (effColl base input "projects")) (fun sProjects =>
  Except.bind (getArray (effColl base input "outreach")) (fun sOutreach =>
  Except.bind (getArray (effColl base input "materials")) (fun sMaterials =>
  Except.bind (sProjects.mapM (fun p => getField p "id")) (fun pids =>
  Except.bind (sOutreach.mapM (fun o => getField o "id")) (fun oids =>
  Except.bind (sMaterials.mapM (fun m => getField m "id")) (fun mids =>
  Except.bind (sProjects.mapM (projStep oids mids)) (fun nextProjects =>
  Except.bind (sOutreach.mapM (outStep pids)) (fun nextOutreach =>
  Except.bind (sMaterials.mapM (matStep pids)) (fun nextMaterials =>
  Except.bind (getArray (if isArr (effColl base input "decisions")
      then effColl base input "decisions" else getFieldOpt base "decisions"))
    (fun sDecisions =>
  Except.ok (normalizeAssembleJS now
    (jsToString
      (if truthy (getFieldOpt (getFieldOpt input "meta") "createdAt")
       then getFieldOpt (getFieldOpt input "meta") "createdAt"
       else getFieldOpt (getFieldOpt base "meta") "createdAt"))
    pids oids nextProjects nextOutreach nextMaterials sDecisions)))))))))))

/-- `!parsed?.projects || !parsed?.outreach || !parsed?.materials ||
!parsed?.decisions`, negated. -/
def fourTruthy (v : JSValue) : Bool :=
  truthy (getFieldOpt v "projects") && truthy (getFieldOpt v "outreach") &&
  truthy (getFieldOpt v "materials") && truthy (getFieldOpt v "decisions")

/-- The branch of `loadStore` taken once the persisted text has parsed:
seed fallback on falsy collections, otherwise normalization with its
throw caught to the seed. -/
def loadStoreGo (base : JSValue) (now : String) (parsed : JSValue) : JSValue :=
  if fourTruthy parsed then
    match normalizeStoreJS base now parsed with
    | Except.ok w => w
    | Except.error _ => base
  else base

/-- The branch of `loadStore` on the outcome of `JSON.parse` (`none`
models a parse throw, caught to the seed). -/
def loadStoreParsed (base : JSValue) (now : String) : Option JSValue → JSValue
  | none => base
  | some parsed => loadStoreGo base now parsed

/-- `loadStore` from `src/App.tsx` lines 581-593.  `raw` is the persisted
text from local storage (`none` when absent; the empty string is falsy),
`parse` the outcome of `JSON.parse`, `base` the freshly generated seed
document.  The whole body sits in a `try`/`catch` returning the seed, so
a normalization throw also falls back to the seed. -/
def loadStoreJS (base : JSValue) (now : String) :
    Option String → (String → Option JSValue) → JSValue
  | none, _ => base
  | some r, parse => if r == "" then base else loadStoreParsed base now (parse r)

/-- `seed()` from `src/App.tsx` lines 344-488 as a JavaScript value.  The
six `uid(...)` outputs and the two `new Date().toISOString()` stamps are
non-deterministic and passed as parameters; every other field is the
source literal. -/
def seedJS (p1 p2 o1 m1 m2 d1 created updated : String) : JSValue :=
  JSValue.obj
    [("projects", JSValue.arr
      [JSValue.obj
        [("id", JSValue.str p1),
         ("projectId", JSValue.str "SR-2026-01"),
         ("name", JSValue.str "Summer Research Internship in Computational Biology"),
         ("institution", JSValue.str "Example University"),
         ("region", JSValue.str "USA"),
         ("type", JSValue.str "Summer Research Program"),
         ("officialLink", JSValue.str "https://example.edu/summer-research"),
         ("keywords", JSValue.arr [JSValue.str "Computational Chemistry", JSValue.str "GPCR",
           JSValue.str "Docking", JSValue.str "ML", JSValue.str "Free Energy"]),
         ("piLab", JSValue.str "Dr. A. Smith — Structural Pharmacology Lab"),
         ("needsOutreach", JSValue.str "Yes"),
         ("round", JSValue.str "Round 1"),
         ("ddl", JSValue.str "2026-02-01"),
         ("period", JSValue.str "2026-06-01 ~ 2026-08-15"),
         ("funding", JSValue.arr [JSValue.str "stipend", JSValue.str "housing"]),
         ("eligibility", JSValue.str "Master/PhD track preferred; programming required"),
         ("materials", JSValue.arr [JSValue.str "CV", JSValue.str "Research Statement",
           JSValue.str "Transcript", JSValue.str "2 Letters"]),
         ("portalStatus", JSValue.str "Open"),
         ("status", JSValue.str "Preparing"),
         ("fit", JSValue.num (JSNum.fin 9)),
         ("risk", JSValue.num (JSNum.fin 7)),
         ("roi", JSValue.num (JSNum.fin 9)),
         ("priority", JSValue.str "High"),
         ("decision", JSValue.str "Apply"),
         ("nextAction", JSValue.str "Send outreach email with CV + 1-page summary"),
         ("nextActionDate", JSValue.str "2026-01-05"),
         ("outreachIds", JSValue.arr [JSValue.str o1]),
         ("materialTaskIds", JSValue.arr [JSValue.str m1, JSValue.str m2]),
         ("notes", JSValue.str "Recent relevant publications; method-development friendly.")],
       JSValue.obj
        [("id", JSValue.str p2),
         ("projectId", JSValue.str "SR-2026-02"),
         ("name", JSValue.str "Visiting Student Research Fellowship (Chemistry)"),
         ("institution", JSValue.str "Example Institute"),
         ("region", JSValue.str "EU"),
         ("type", JSValue.str "Visiting Student"),
         ("officialLink", JSValue.str ""),
         ("keywords", JSValue.arr [JSValue.str "Computational Chemistry", JSValue.str "Drug Discovery"]),
         ("piLab", JSValue.str ""),
         ("needsOutreach", JSValue.str "Optional"),
         ("round", JSValue.str "Single"),
         ("ddl", JSValue.str "2026-01-20"),
         ("period", JSValue.str "Summer 2026"),
         ("funding", JSValue.arr [JSValue.str "travel"]),
         ("eligibility", JSValue.str "Strong academic record; statement required"),
         ("materials", JSValue.arr [JSValue.str "CV", JSValue.str "SOP", JSValue.str "Transcript"]),
         ("portalStatus", JSValue.str "Not Open"),
         ("status", JSValue.str "Prospecting"),
         ("fit", JSValue.num (JSNum.fin 8)),
         ("risk", JSValue.num (JSNum.fin 6)),
         ("roi", JSValue.num (JSNum.fin 8)),
         ("priority", JSValue.str "Medium"),
         ("decision", JSValue.str "Maybe"),
         ("nextAction", JSValue.str "Confirm opening date; shortlist 2 labs"),
         ("nextActionDate", JSValue.str "2025-12-28"),
         ("outreachIds", JSValue.arr []),
         ("materialTaskIds", JSValue.arr []),
         ("notes", JSValue.str "Need to verify eligibility for current degree.")]]),
     ("outreach", JSValue.arr
      [JSValue.obj
        [("id", JSValue.str o1),
         ("outreachId", JSValue.str "PI-2026-01"),
         ("piName", JSValue.str "A. Smith"),
         ("institution", JSValue.str "Example University"),
         ("directions", JSValue.arr [JSValue.str "GPCR", JSValue.str "Docking", JSValue.str "ML"]),
         ("contact", JSValue.str "asmith@example.edu"),
         ("firstContact", JSValue.str "2026-01-05"),
         ("emailVersion", JSValue.str "v2-tailored"),
         ("replied", JSValue.str "No reply"),
         ("replyDate", JSValue.str ""),
         ("replySummary", JSValue.str ""),
         ("stage", JSValue.str "Sent"),
         ("nextFollowUp", JSValue.str "2026-01-12"),
         ("nextAction", JSValue.str "Follow up with 1-page proposal summary"),
         ("projectIds", JSValue.arr [JSValue.str p1]),
         ("notes", JSValue.str "Keep email concise; include 2 most relevant outputs.")]]),
     ("materials", JSValue.arr
      [JSValue.obj
        [("id", JSValue.str m1),
         ("taskId", JSValue.str "MAT-01"),
         ("type", JSValue.str "CV"),
         ("targetProject", JSValue.str "通用"),
         ("status", JSValue.str "已修改"),
         ("version", JSValue.str "v2"),
         ("due", JSValue.str "2026-01-10"),
         ("dependency", JSValue.str ""),
         ("link", JSValue.str ""),
         ("notes", JSValue.str "Add 2 representative projects + skills summary.")],
       JSValue.obj
        [("id", JSValue.str m2),
         ("taskId", JSValue.str "MAT-02"),
         ("type", JSValue.str "Research Statement"),
         ("targetProject", JSValue.str p1),
         ("status", JSValue.str "草稿"),
         ("version", JSValue.str "v1"),
         ("due", JSValue.str "2026-01-15"),
         ("dependency", JSValue.str "Need PI focus confirmed"),
         ("link", JSValue.str ""),
         ("notes", JSValue.str "Emphasize compute→experiment loop.")]]),
     ("decisions", JSValue.arr
      [JSValue.obj
        [("id", JSValue.str d1),
         ("projectInternalId", JSValue.str p2),
         ("conclusion", JSValue.str "Apply"),
         ("priority", JSValue.str "Medium"),
         ("whyApply", JSValue.str "- Strong alignment with computational chemistry + drug discovery\n- Travel funding lowers cost\n- Clear PI/lab options once portal opens"),
         ("risks", JSValue.str "- Early DDL and tight materials timeline\n- Competitive; may prefer PhD-only\n- Recommendation letter uncertainty"),
         ("fitEvidence", JSValue.str "- Prior screening + docking + assay validation experience\n- Python + modeling + free-energy familiarity\n- Potential for method benchmark + dataset curation"),
         ("strategy", JSValue.str "- Outreach: short email + 2 relevant outputs\n- Materials: tailor RS around closed-loop pipeline\n- Backup: alternative labs within same institute"),
         ("postResult", JSValue.str ""),
         ("timeline", JSValue.str ""),
         ("worked", JSValue.str ""),
         ("didnt", JSValue.str ""),
         ("improvements", JSValue.str ""),
         ("takeaways", JSValue.str "")]]),
     ("meta", JSValue.obj
       [("version", JSValue.num (JSNum.fin 1)),
        ("createdAt", JSValue.str created),
        ("updatedAt", JSValue.str updated)])]

/-- A concrete seed instance (fixing the non-deterministic ids/stamps). -/
def seedJS0 : JSValue :=
  seedJS "p_seed1" "p_seed2" "o_seed1" "m_seed1" "m_seed2" "d_seed1"
    "2026-01-01T00:00:00.000Z" "2026-01-01T00:00:00.000Z"

/-- A parsed document whose four collections are present, truthy arrays,
but whose `projects` array contains `null` — `p.id` throws on it. -/
def badProjectsDoc : JSValue :=
  JSValue.obj
    [("projects", JSValue.arr [JSValue.null]),
     ("outreach", JSValue.arr []),
     ("materials", JSValue.arr []),
     ("decisions", JSValue.arr [])]

/-- `true` unless the value is `null` or `undefined` (property access on it
throws). -/
def nonNullish : JSValue → Bool
  | JSValue.null => false
  | JSValue.undef => false
  | _ => true

/-- The effective collection is an array all of whose elements survive
property access. -/
def collOk (base input : JSValue) (name : String) : Bool :=
  match effColl base input name with
  | JSValue.arr l => l.all nonNullish
  | _ => false

/-- Hypothesis under which the untyped `normalizeStore` cannot throw:
projects/outreach/materials elements are all non-nullish, and the
effective decisions collection is an array. -/
def goodCollections (base input : JSValue) : Bool :=
  collOk base input "projects" && collOk base input "outreach" &&
  collOk base input "materials" && isArr (effColl base input "decisions")

/-- A minimal parsed document: four present, truthy, empty collections. -/
def fourArraysDoc : JSValue :=
  JSValue.obj
    [("projects", JSValue.arr []),
     ("outreach", JSValue.arr []),
     ("materials", JSValue.arr []),
     ("decisions", JSValue.arr [])]

/-- A fully-defaulted project used to build concrete test documents. -/
def blankProject (id : ID) (oids mids : List ID) : Project :=
  { id := id, projectId := "", name := "", institution := "", region := "", type := "",
    officialLink := "", keywords := [], piLab := "", needsOutreach := "Yes", round := "",
    ddl := "", period := "", funding := [], eligibility := "", materials := [],
    portalStatus := "Not Open", status := "Prospecting", fit := 0, risk := 0, roi := 0,
    priority := "Medium", decision := "Maybe", nextAction := "", nextActionDate := "",
    outreachIds := oids, materialTaskIds := mids, notes := "" }

/-- A fully-defaulted outreach record for concrete test documents. -/
def blankOutreach (id : ID) (pids : List ID) : Outreach :=
  { id := id, outreachId := "", piName := "", institution := "", directions := [],
    contact := "", firstContact := "", emailVersion := "", replied := "No reply",
    replyDate := "", replySummary := "", stage := "Drafting", nextFollowUp := "",
    nextAction := "", projectIds := pids, notes := "", threadId := none }

/-- A fully-defaulted material task for concrete test documents. -/
def blankMaterial (id : ID) (target : String) : MaterialTask :=
  { id := id, taskId := "", type := "CV", targetProject := target, status := "未开始",
    version := "v1", due := "", dependency := "", link := "", fileName := none,
    fileLastModified := none, notes := "" }

/-- A fully-defaulted decision card for concrete test documents. -/
def blankDecision (id pid : ID) : Decision :=
  { id := id, projectInternalId := pid, conclusion := "Apply", priority := "Medium",
    whyApply := "", risks := "", fitEvidence := "", strategy := "", postResult := "",
    timeline := "", worked := "", didnt := "", improvements := "", takeaways := "" }

/-- Concrete metadata for test documents. -/
def meta0 : StoreMeta :=
  { version := 1, createdAt := "2026-01-01T00:00:00.000Z", updatedAt := "2026-01-01T00:00:00.000Z" }

/-- A concrete stand-in for the non-deterministic `seed()` parameter on
the typed layer (typed normalization reads only its `meta.createdAt`). -/
def emptyBase : Store :=
  { projects := [], outreach := [], materials := [], decisions := [], meta := meta0 }

/-- Document with a project-side link that the outreach side does not
reflect, and a kept material-task id whose material targets another
project. -/
def c1Store : Store :=
  { projects := [blankProject "p1" ["o1"] ["m1"], blankProject "p2" [] []],
    outreach := [blankOutreach "o1" []],
    materials := [blankMaterial "m1" "p2"],
    decisions := [], meta := meta0 }

/-- Document where every link direction needs repair. -/
def c2Store : Store :=
  { projects := [blankProject "p1" [] []],
    outreach := [blankOutreach "o1" ["p1"]],
    materials := [blankMaterial "m1" "p1"],
    decisions := [], meta := meta0 }

/-- Document with a dangling project-side id AND an unreflected
outreach-side link: pruning alone does not describe the result. -/
def c5Store : Store :=
  { projects := [blankProject "p1" ["missing"] []],
    outreach := [blankOutreach "o1" ["p1"]],
    materials := [], decisions := [], meta := meta0 }

/-- The spec's pruning example: outreachIds = ["missing", "o1"], only o1
exists, no reverse links anywhere. -/
def c5ExampleStore : Store :=
  { projects := [blankProject "p1" ["missing", "o1"] []],
    outreach := [blankOutreach "o1" []],
    materials := [], decisions := [], meta := meta0 }

/-- Document for the material-reassignment scenario: m1 targets pa and is
listed by pa. -/
def c6Store : Store :=
  { projects := [blankProject "pa" [] ["m1"], blankProject "pb" [] []],
    outreach := [],
    materials := [blankMaterial "m1" "pa"],
    decisions := [], meta := meta0 }

/-- The patch moving m1 to pb. -/
def c6Patch : MaterialPatch := { targetProject := some "pb" }

/-- Document for the deletion-cascade scenario (the spec's end-to-end
scenario: P1 linked to O1, M1 unassigned, M2 → P1, decision on P1). -/
def c7Store : Store :=
  { projects := [blankProject "p1" ["o1"] ["m2"]],
    outreach := [blankOutreach "o1" ["p1"]],
    materials := [blankMaterial "m1" unassigned, blankMaterial "m2" "p1"],
    decisions := [blankDecision "d1" "p1"], meta := meta0 }

/-- A project whose fit score is 0 (and whose string fields are empty). -/
def c10Project : Project := blankProject "p1" [] []

theorem mem_jsDedupGo (l : List String) : ∀ (seen : List String) (x : String),
    x ∈ jsDedupGo seen l ↔ (x ∈ l ∧ x ∉ seen) := by
  induction l with
  | nil => intro seen x; simp [jsDedupGo]
  | cons a l ih =>
    intro seen x
    by_cases ha : a ∈ seen
    · rw [jsDedupGo, if_pos ha, ih]
      constructor
      · rintro ⟨hl, hs⟩
        exact ⟨List.mem_cons_of_mem _ hl, hs⟩
      · rintro ⟨hl, hs⟩
        rcases List.mem_cons.mp hl with rfl | hl
        · exact absurd ha hs
        · exact ⟨hl, hs⟩
    · rw [jsDedupGo, if_neg ha]
      constructor
      · intro hx
        rcases List.mem_cons.mp hx with rfl | hx
        · exact ⟨List.mem_cons_self _ _, ha⟩
        · rw [ih] at hx
          obtain ⟨hl, hs⟩ := hx
          refine ⟨List.mem_cons_of_mem _ hl, fun hxs => hs (List.mem_cons_of_mem _ hxs)⟩
      · rintro ⟨hl, hs⟩
        rcases List.mem_cons.mp hl with rfl | hl
        · exact List.mem_cons_self _ _
        · by_cases hxa : x = a
          · subst hxa; exact List.mem_cons_self _ _
          · apply List.mem_cons_of_mem
            rw [ih]
            refine ⟨hl, fun hxs => ?_⟩
            rcases List.mem_cons.mp hxs with h | h
            · exact hxa h
            · exact hs h

theorem mem_jsDedup (l : List String) (x : String) : x ∈ jsDedup l ↔ x ∈ l := by
  simp [jsDedup, mem_jsDedupGo]

theorem mem_addToSet (l : List String) (y x : String) :
    x ∈ addToSet l y ↔ (x ∈ l ∨ x = y) := by
  simp [addToSet, mem_jsDedup]

theorem mem_addToSet_of_mem (l : List String) (y x : String) (h : x ∈ l) : x ∈ addToSet l y :=
  (mem_addToSet l y x).mpr (Or.inl h)

theorem self_mem_addToSet (l : List String) (y : String) : y ∈ addToSet l y :=
  (mem_addToSet l y y).mpr (Or.inr rfl)

theorem outreachAdd_id (oid : String) (p : Project) : (outreachAdd oid p).id = p.id := by
  unfold outreachAdd; split <;> rfl

theorem outreachAdd_mono (oid : String) (p : Project) (x : String)
    (h : x ∈ p.outreachIds) : x ∈ (outreachAdd oid p).outreachIds := by
  unfold outreachAdd
  split
  · exact h
  · exact mem_addToSet_of_mem _ _ _ h

theorem outreachAdd_self (oid : String) (p : Project) : oid ∈ (outreachAdd oid p).outreachIds := by
  unfold outreachAdd
  split
  · assumption
  · exact self_mem_addToSet _ _

theorem outreachAdd_mats (oid : String) (p : Project) :
    (outreachAdd oid p).materialTaskIds = p.materialTaskIds := by
  unfold outreachAdd; split <;> rfl

theorem materialAdd_id (mid : String) (p : Project) : (materialAdd mid p).id = p.id := by
  unfold materialAdd; split <;> rfl

theorem materialAdd_mono (mid : String) (p : Project) (x : String)
    (h : x ∈ p.materialTaskIds) : x ∈ (materialAdd mid p).materialTaskIds := by
  unfold materialAdd
  split
  · exact h
  · exact mem_addToSet_of_mem _ _ _ h

theorem materialAdd_self (mid : String) (p : Project) : mid ∈ (materialAdd mid p).materialTaskIds := by
  unfold materialAdd
  split
  · assumption
  · exact self_mem_addToSet _ _

theorem materialAdd_outs (mid : String) (p : Project) :
    (materialAdd mid p).outreachIds = p.outreachIds := by
  unfold materialAdd; split <;> rfl

theorem length_updateLast (ps : List Project) (k : String) (f : Project → Project) :
    (updateLast ps k f).length = ps.length := by
  induction ps with
  | nil => rfl
  | cons p rest ih =>
    rw [updateLast]
    split
    · simpa using ih
    · split <;> simp [ih]

theorem ids_updateLast (ps : List Project) (k : String) (f : Project → Project)
    (hf : ∀ p, (f p).id = p.id) :
    (updateLast ps k f).map (fun p => p.id) = ps.map (fun p => p.id) := by
  induction ps with
  | nil => rfl
  | cons p rest ih =>
    rw [updateLast]
    split
    · simpa using ih
    · split
      · simp [hf]
      · simpa using ih

theorem any_id_updateLast (ps : List Project) (k : String) (f : Project → Project)
    (hf : ∀ p, (f p).id = p.id) (k' : String) :
    (updateLast ps k f).any (fun q => q.id == k') = ps.any (fun q => q.id == k') := by
  induction ps with
  | nil => rfl
  | cons p rest ih =>
    rw [updateLast]
    split
    · simp [List.any_cons, ih]
    · split
      · simp [List.any_cons, hf]
      · simp [List.any_cons, ih]

theorem updateLast_eq_self (ps : List Project) (k : String) (f : Project → Project)
    (h : ∀ p, lastMatch? ps k = some p → f p = p) : updateLast ps k f = ps := by
  induction ps with
  | nil => rfl
  | cons p rest ih =>
    rw [updateLast]
    by_cases hany : rest.any (fun q => q.id == k) = true
    · rw [if_pos hany]
      rw [ih (fun q hq => h q (by rw [lastMatch?, if_pos hany]; exact hq))]
    · rw [if_neg hany]
      by_cases hpk : (p.id == k) = true
      · rw [if_pos hpk]
        rw [h p (by rw [lastMatch?, if_neg hany, if_pos hpk])]
      · rw [if_neg hpk]
        rw [ih (fun q hq => h q (by rw [lastMatch?, if_neg hany, if_neg hpk]; exact hq))]

theorem lastMatch?_mem (ps : List Project) (k : String) (p : Project)
    (h : lastMatch? ps k = some p) : p ∈ ps ∧ p.id = k := by
  induction ps with
  | nil => simp [lastMatch?] at h
  | cons q rest ih =>
    rw [lastMatch?] at h
    by_cases hany : rest.any (fun x => x.id == k) = true
    · rw [if_pos hany] at h
      obtain ⟨hm, hid⟩ := ih h
      exact ⟨List.mem_cons_of_mem _ hm, hid⟩
    · rw [if_neg hany] at h
      by_cases hpk : (q.id == k) = true
      · rw [if_pos hpk] at h
        cases h
        exact ⟨List.mem_cons_self _ _, by simpa using hpk⟩
      · rw [if_neg hpk] at h
        obtain ⟨hm, hid⟩ := ih h
        exact ⟨List.mem_cons_of_mem _ hm, hid⟩

theorem lastMatch?_isSome_of_mem (ps : List Project) (k : String)
    (h : k ∈ ps.map (fun p => p.id)) : ∃ p, lastMatch? ps k = some p := by
  induction ps with
  | nil => simp at h
  | cons q rest ih =>
    rw [lastMatch?]
    by_cases hany : rest.any (fun x => x.id == k) = true
    · rw [if_pos hany]
      rcases List.any_eq_true.mp hany with ⟨x, hx, hxk⟩
      exact ih (by simp only [List.mem_map]; exact ⟨x, hx, by simpa using hxk⟩)
    · rw [if_neg hany]
      by_cases hpk : (q.id == k) = true
      · rw [if_pos hpk]; exact ⟨q, rfl⟩
      · rw [if_neg hpk]
        apply ih
        simp only [List.mem_map] at h ⊢
        rcases h with ⟨x, hx, hxk⟩
        rcases List.mem_cons.mp hx with rfl | hx
        · exact absurd (by simpa using hxk) hpk
        · exact ⟨x, hx, hxk⟩

theorem lastMatch?_updateLast_self (ps : List Project) (k : String) (f : Project → Project)
    (hf : ∀ p, (f p).id = p.id) :
    lastMatch? (updateLast ps k f) k = (lastMatch? ps k).map f := by
  induction ps with
  | nil => rfl
  | cons p rest ih =>
    rw [updateLast]
    by_cases hany : rest.any (fun q => q.id == k) = true
    · rw [if_pos hany, lastMatch?, any_id_updateLast rest k f hf, if_pos hany, ih,
        lastMatch?, if_pos hany]
    · rw [if_neg hany]
      by_cases hpk : (p.id == k) = true
      · rw [if_pos hpk, lastMatch?, if_neg hany, lastMatch?, if_neg hany, if_pos hpk,
          if_pos (show ((f p).id == k) = true by rw [hf]; exact hpk)]
        rfl
      · rw [if_neg hpk, lastMatch?, any_id_updateLast rest k f hf, if_neg hany, if_neg hpk,
          ih, lastMatch?, if_neg hany, if_neg hpk]

theorem lastMatch?_updateLast_ne (ps : List Project) (k : String) (f : Project → Project)
    (hf : ∀ p, (f p).id = p.id) (k' : String) (hk : k' ≠ k) :
    lastMatch? (updateLast ps k f) k' = lastMatch? ps k' := by
  induction ps with
  | nil => rfl
  | cons p rest ih =>
    rw [updateLast]
    by_cases hany : rest.any (fun q => q.id == k) = true
    · rw [if_pos hany, lastMatch?, any_id_updateLast rest k f hf]
      conv_rhs => rw [lastMatch?]
      by_cases h1 : (rest.any fun q => q.id == k') = true
      · rw [if_pos h1, if_pos h1, ih]
      · rw [if_neg h1, if_neg h1]
        by_cases h2 : (p.id == k') = true
        · rw [if_pos h2, if_pos h2]
        · rw [if_neg h2, if_neg h2, ih]
    · rw [if_neg hany]
      by_cases hpk : (p.id == k) = true
      · rw [if_pos hpk]
        have hpkk : p.id = k := by simpa using hpk
        have hpne : (p.id == k') = false :=
          beq_eq_false_iff_ne.mpr (by rw [hpkk]; exact fun h => hk h.symm)
        have hfne : ((f p).id == k') = false := by rw [hf]; exact hpne
        rw [lastMatch?, hfne]
        conv_rhs => rw [lastMatch?, hpne]
        by_cases h1 : (rest.any fun q => q.id == k') = true
        · rw [if_pos h1, if_pos h1]
        · rw [if_neg h1, if_neg h1]
          simp
      · rw [if_neg hpk, lastMatch?, any_id_updateLast rest k f hf]
        conv_rhs => rw [lastMatch?]
        by_cases h1 : (rest.any fun q => q.id == k') = true
        · rw [if_pos h1, if_pos h1, ih]
        · rw [if_neg h1, if_neg h1]
          by_cases h2 : (p.id == k') = true
          · rw [if_pos h2, if_pos h2]
          · rw [if_neg h2, if_neg h2, ih]

theorem get_updateLast_stable (ps : List Project) (k : String) (f : Project → Project) :
    ∀ (i : Nat) (hps : i < ps.length),
    ((ps.get ⟨i, hps⟩).id = k → f (ps.get ⟨i, hps⟩) = ps.get ⟨i, hps⟩) →
    ∃ h2 : i < (updateLast ps k f).length,
      (updateLast ps k f).get ⟨i, h2⟩ = ps.get ⟨i, hps⟩ := by
  induction ps with
  | nil => intro i hps; simp at hps
  | cons p rest ih =>
    intro i hps hcase
    have hlen : (updateLast (p :: rest) k f).length = (p :: rest).length :=
      length_updateLast _ _ _
    rw [updateLast]
    by_cases hany : rest.any (fun q => q.id == k) = true
    · rw [if_pos hany]
      match i with
      | 0 => exact ⟨by simp [length_updateLast], rfl⟩
      | Nat.succ j =>
        have hj : j < rest.length := Nat.lt_of_succ_lt_succ hps
        obtain ⟨h2, hget⟩ := ih j hj hcase
        exact ⟨Nat.succ_lt_succ h2, hget⟩
    · rw [if_neg hany]
      by_cases hpk : (p.id == k) = true
      · rw [if_pos hpk]
        match i with
        | 0 =>
          refine ⟨by simp, ?_⟩
          simpa using hcase (by simpa using hpk)
        | Nat.succ j =>
          have hj : j < rest.length := Nat.lt_of_succ_lt_succ hps
          exact ⟨Nat.succ_lt_succ hj, rfl⟩
      · rw [if_neg hpk]
        match i with
        | 0 => exact ⟨by simp [length_updateLast], rfl⟩
        | Nat.succ j =>
          have hj : j < rest.length := Nat.lt_of_succ_lt_succ hps
          obtain ⟨h2, hget⟩ := ih j hj hcase
          exact ⟨Nat.succ_lt_succ h2, hget⟩

theorem forall_updateLast (ps : List Project) (k : String) (f : Project → Project)
    (P : Project → Prop) (h : ∀ p ∈ ps, P p) (hf : ∀ p, p.id = k → P p → P (f p)) :
    ∀ q ∈ updateLast ps k f, P q := by
  induction ps with
  | nil => intro q hq; simp [updateLast] at hq
  | cons p rest ih =>
    intro q hq
    rw [updateLast] at hq
    by_cases hany : rest.any (fun x => x.id == k) = true
    · rw [if_pos hany] at hq
      rcases List.mem_cons.mp hq with rfl | hq
      · exact h q (List.mem_cons_self _ _)
      · exact ih (fun x hx => h x (List.mem_cons_of_mem _ hx)) q hq
    · rw [if_neg hany] at hq
      by_cases hpk : (p.id == k) = true
      · rw [if_pos hpk] at hq
        rcases List.mem_cons.mp hq with rfl | hq
        · exact hf p (by simpa using hpk) (h p (List.mem_cons_self _ _))
        · exact h q (List.mem_cons_of_mem _ hq)
      · rw [if_neg hpk] at hq
        rcases List.mem_cons.mp hq with rfl | hq
        · exact h q (List.mem_cons_self _ _)
        · exact ih (fun x hx => h x (List.mem_cons_of_mem _ hx)) q hq

theorem lastMatch?_map (ps : List Project) (g : Project → Project)
    (hg : ∀ p, (g p).id = p.id) (k : String) :
    lastMatch? (ps.map g) k = (lastMatch? ps k).map g := by
  induction ps with
  | nil => rfl
  | cons p rest ih =>
    rw [List.map_cons, lastMatch?]
    conv_rhs => rw [lastMatch?]
    have hfun : (fun (q : Project) => (g q).id == k) = (fun q => q.id == k) :=
      funext (fun q => by rw [hg])
    have hany : ((rest.map g).any fun q => q.id == k) = (rest.any fun q => q.id == k) := by
      rw [List.any_map]
      show (rest.any fun q => (g q).id == k) = _
      rw [hfun]
    rw [hany, hg]
    by_cases h1 : (rest.any fun q => q.id == k) = true
    · rw [if_pos h1, if_pos h1, ih]
    · rw [if_neg h1, if_neg h1]
      by_cases h2 : (p.id == k) = true
      · rw [if_pos h2, if_pos h2]
        rfl
      · rw [if_neg h2, if_neg h2, ih]

theorem innerRepair_cons (oid q : String) (qs : List String) (ps : List Project) :
    innerRepair oid (q :: qs) ps = innerRepair oid qs (updateLast ps q (outreachAdd oid)) := rfl

theorem repairOutreachLinks_cons (ps : List Project) (o : Outreach) (os : List Outreach) :
    repairOutreachLinks ps (o :: os) =
      repairOutreachLinks (innerRepair o.id o.projectIds ps) os := rfl

theorem repairMaterialLinks_cons (ps : List Project) (m : MaterialTask) (ms : List MaterialTask) :
    repairMaterialLinks ps (m :: ms) =
      repairMaterialLinks
        (if m.targetProject = unassigned then ps
         else updateLast ps m.targetProject (materialAdd m.id)) ms := by
  rw [repairMaterialLinks, List.foldl_cons]
  split <;> rfl

theorem outreachLinked_updateLast (oid pid : String) (ps : List Project) (k : String)
    (f : Project → Project) (hf_id : ∀ p, (f p).id = p.id)
    (hf_sub : ∀ p x, x ∈ p.outreachIds → x ∈ (f p).outreachIds)
    (h : OutreachLinked oid pid ps) : OutreachLinked oid pid (updateLast ps k f) := by
  intro p hp
  by_cases hk : pid = k
  · subst hk
    rw [lastMatch?_updateLast_self ps pid f hf_id] at hp
    rcases Option.map_eq_some'.mp hp with ⟨q, hq, rfl⟩
    exact hf_sub q oid (h q hq)
  · rw [lastMatch?_updateLast_ne ps k f hf_id pid hk] at hp
    exact h p hp

theorem materialLinked_updateLast (mid tgt : String) (ps : List Project) (k : String)
    (f : Project → Project) (hf_id : ∀ p, (f p).id = p.id)
    (hf_sub : ∀ p x, x ∈ p.materialTaskIds → x ∈ (f p).materialTaskIds)
    (h : MaterialLinked mid tgt ps) : MaterialLinked mid tgt (updateLast ps k f) := by
  intro p hp
  by_cases hk : tgt = k
  · subst hk
    rw [lastMatch?_updateLast_self ps tgt f hf_id] at hp
    rcases Option.map_eq_some'.mp hp with ⟨q, hq, rfl⟩
    exact hf_sub q mid (h q hq)
  · rw [lastMatch?_updateLast_ne ps k f hf_id tgt hk] at hp
    exact h p hp

theorem outreachLinked_innerRepair (oid pid oid' : String) (pids : List String)
    (ps : List Project) (h : OutreachLinked oid pid ps) :
    OutreachLinked oid pid (innerRepair oid' pids ps) := by
  induction pids generalizing ps with
  | nil => exact h
  | cons q qs ih =>
    rw [innerRepair_cons]
    exact ih _ (outreachLinked_updateLast oid pid ps q _ (outreachAdd_id oid')
      (fun p x => outreachAdd_mono oid' p x) h)

theorem materialLinked_innerRepair (mid tgt oid' : String) (pids : List String)
    (ps : List Project) (h : MaterialLinked mid tgt ps) :
    MaterialLinked mid tgt (innerRepair oid' pids ps) := by
  induction pids generalizing ps with
  | nil => exact h
  | cons q qs ih =>
    rw [innerRepair_cons]
    refine ih _ (materialLinked_updateLast mid tgt ps q _ (outreachAdd_id oid') ?_ h)
    intro p x hx
    rw [outreachAdd_mats]
    exact hx

theorem outreachLinked_repairOutreach (oid pid : String) (os : List Outreach)
    (ps : List Project) (h : OutreachLinked oid pid ps) :
    OutreachLinked oid pid (repairOutreachLinks ps os) := by
  induction os generalizing ps with
  | nil => exact h
  | cons o os ih =>
    rw [repairOutreachLinks_cons]
    exact ih _ (outreachLinked_innerRepair oid pid o.id o.projectIds ps h)

theorem materialLinked_repairOutreach (mid tgt : String) (os : List Outreach)
    (ps : List Project) (h : MaterialLinked mid tgt ps) :
    MaterialLinked mid tgt (repairOutreachLinks ps os) := by
  induction os generalizing ps with
  | nil => exact h
  | cons o os ih =>
    rw [repairOutreachLinks_cons]
    exact ih _ (materialLinked_innerRepair mid tgt o.id o.projectIds ps h)

theorem outreachLinked_repairMaterial (oid pid : String) (ms : List MaterialTask)
    (ps : List Project) (h : OutreachLinked oid pid ps) :
    OutreachLinked oid pid (repairMaterialLinks ps ms) := by
  induction ms generalizing ps with
  | nil => exact h
  | cons m ms ih =>
    rw [repairMaterialLinks_cons]
    split
    · exact ih _ h
    · refine ih _ (outreachLinked_updateLast oid pid ps m.targetProject _
        (materialAdd_id m.id) ?_ h)
      intro p x hx
      rw [materialAdd_outs]
      exact hx

theorem materialLinked_repairMaterial (mid tgt : String) (ms : List MaterialTask)
    (ps : List Project) (h : MaterialLinked mid tgt ps) :
    MaterialLinked mid tgt (repairMaterialLinks ps ms) := by
  induction ms generalizing ps with
  | nil => exact h
  | cons m ms ih =>
    rw [repairMaterialLinks_cons]
    split
    · exact ih _ h
    · exact ih _ (materialLinked_updateLast mid tgt ps m.targetProject _
        (materialAdd_id m.id) (fun p x => materialAdd_mono m.id p x) h)

theorem outreachLinked_establish_step (oid pid : String) (ps : List Project) :
    OutreachLinked oid pid (updateLast ps pid (outreachAdd oid)) := by
  intro p hp
  rw [lastMatch?_updateLast_self ps pid _ (outreachAdd_id oid)] at hp
  rcases Option.map_eq_some'.mp hp with ⟨q, _, rfl⟩
  exact outreachAdd_self oid q

theorem materialLinked_establish_step (mid tgt : String) (ps : List Project) :
    MaterialLinked mid tgt (updateLast ps tgt (materialAdd mid)) := by
  intro p hp
  rw [lastMatch?_updateLast_self ps tgt _ (materialAdd_id mid)] at hp
  rcases Option.map_eq_some'.mp hp with ⟨q, _, rfl⟩
  exact materialAdd_self mid q

theorem innerRepair_establishes (oid : String) (pids : List String) (ps : List Project)
    (pid : String) (hpid : pid ∈ pids) :
    OutreachLinked oid pid (innerRepair oid pids ps) := by
  induction pids generalizing ps with
  | nil => simp at hpid
  | cons q qs ih =>
    rw [innerRepair_cons]
    rcases List.mem_cons.mp hpid with rfl | hpid
    · exact outreachLinked_innerRepair _ _ _ _ _ (outreachLinked_establish_step oid _ ps)
    · exact ih _ hpid

theorem repairOutreach_establishes (os : List Outreach) (ps : List Project)
    (o : Outreach) (ho : o ∈ os) (pid : String) (hpid : pid ∈ o.projectIds) :
    OutreachLinked o.id pid (repairOutreachLinks ps os) := by
  induction os generalizing ps with
  | nil => simp at ho
  | cons o' os ih =>
    rw [repairOutreachLinks_cons]
    rcases List.mem_cons.mp ho with rfl | ho
    · exact outreachLinked_repairOutreach o.id pid os _
        (innerRepair_establishes o.id o.projectIds ps pid hpid)
    · exact ih _ ho

theorem repairMaterial_establishes (ms : List MaterialTask) (ps : List Project)
    (m : MaterialTask) (hm : m ∈ ms) (ht : m.targetProject ≠ unassigned) :
    MaterialLinked m.id m.targetProject (repairMaterialLinks ps ms) := by
  induction ms generalizing ps with
  | nil => simp at hm
  | cons m' ms ih =>
    rw [repairMaterialLinks_cons]
    rcases List.mem_cons.mp hm with rfl | hm
    · rw [if_neg ht]
      exact materialLinked_repairMaterial m.id m.targetProject ms _
        (materialLinked_establish_step m.id m.targetProject ps)
    · exact ih _ hm

theorem innerRepair_eq_self (oid : String) (pids : List String) (ps : List Project)
    (h : ∀ pid ∈ pids, OutreachLinked oid pid ps) : innerRepair oid pids ps = ps := by
  induction pids with
  | nil => rfl
  | cons q qs ih =>
    rw [innerRepair_cons]
    have hstep : updateLast ps q (outreachAdd oid) = ps := by
      apply updateLast_eq_self
      intro p hp
      have := h q (List.mem_cons_self _ _) p hp
      unfold outreachAdd
      rw [if_pos this]
    rw [hstep]
    exact ih (fun pid hpid => h pid (List.mem_cons_of_mem _ hpid))

theorem repairOutreach_eq_self (os : List Outreach) (ps : List Project)
    (h : ∀ o ∈ os, ∀ pid ∈ o.projectIds, OutreachLinked o.id pid ps) :
    repairOutreachLinks ps os = ps := by
  induction os with
  | nil => rfl
  | cons o os ih =>
    rw [repairOutreachLinks_cons]
    rw [innerRepair_eq_self o.id o.projectIds ps (h o (List.mem_cons_self _ _))]
    exact ih (fun o' ho' => h o' (List.mem_cons_of_mem _ ho'))

theorem repairMaterial_eq_self (ms : List MaterialTask) (ps : List Project)
    (h : ∀ m ∈ ms, m.targetProject ≠ unassigned →
      MaterialLinked m.id m.targetProject ps) :
    repairMaterialLinks ps ms = ps := by
  induction ms with
  | nil => rfl
  | cons m ms ih =>
    rw [repairMaterialLinks_cons]
    by_cases ht : m.targetProject = unassigned
    · rw [if_pos ht]
      exact ih (fun m' hm' => h m' (List.mem_cons_of_mem _ hm'))
    · rw [if_neg ht]
      have hstep : updateLast ps m.targetProject (materialAdd m.id) = ps := by
        apply updateLast_eq_self
        intro p hp
        have := h m (List.mem_cons_self _ _) ht p hp
        unfold materialAdd
        rw [if_pos this]
      rw [hstep]
      exact ih (fun m' hm' => h m' (List.mem_cons_of_mem _ hm'))

theorem forall_innerRepair (oid : String) (pids : List String) (ps : List Project)
    (P : Project → Prop) (h : ∀ p ∈ ps, P p) (hf : ∀ p, P p → P (outreachAdd oid p)) :
    ∀ q ∈ innerRepair oid pids ps, P q := by
  induction pids generalizing ps with
  | nil => exact h
  | cons q qs ih =>
    rw [innerRepair_cons]
    exact ih _ (forall_updateLast ps q _ P h (fun p _ hp => hf p hp))

theorem forall_repairOutreach (os : List Outreach) (ps : List Project)
    (P : Project → Prop) (h : ∀ p ∈ ps, P p)
    (hf : ∀ o ∈ os, ∀ p, P p → P (outreachAdd o.id p)) :
    ∀ q ∈ repairOutreachLinks ps os, P q := by
  induction os generalizing ps with
  | nil => exact h
  | cons o os ih =>
    rw [repairOutreachLinks_cons]
    exact ih _ (forall_innerRepair o.id o.projectIds ps P h
      (hf o (List.mem_cons_self _ _)))
      (fun o' ho' => hf o' (List.mem_cons_of_mem _ ho'))

theorem forall_repairMaterial (ms : List MaterialTask) (ps : List Project)
    (P : Project → Prop) (h : ∀ p ∈ ps, P p)
    (hf : ∀ m ∈ ms, m.targetProject ≠ unassigned →
      ∀ p, p.id = m.targetProject → P p → P (materialAdd m.id p)) :
    ∀ q ∈ repairMaterialLinks ps ms, P q := by
  induction ms generalizing ps with
  | nil => exact h
  | cons m ms ih =>
    rw [repairMaterialLinks_cons]
    by_cases ht : m.targetProject = unassigned
    · rw [if_pos ht]
      exact ih _ h (fun m' hm' => hf m' (List.mem_cons_of_mem _ hm'))
    · rw [if_neg ht]
      exact ih _
        (forall_updateLast ps m.targetProject _ P h
          (fun p hpk hp => hf m (List.mem_cons_self _ _) ht p hpk hp))
        (fun m' hm' => hf m' (List.mem_cons_of_mem _ hm'))

theorem ids_innerRepair (oid : String) (pids : List String) (ps : List Project) :
    (innerRepair oid pids ps).map (fun p => p.id) = ps.map (fun p => p.id) := by
  induction pids generalizing ps with
  | nil => rfl
  | cons q qs ih =>
    rw [innerRepair_cons, ih, ids_updateLast ps q _ (outreachAdd_id oid)]

theorem ids_repairOutreach (os : List Outreach) (ps : List Project) :
    (repairOutreachLinks ps os).map (fun p => p.id) = ps.map (fun p => p.id) := by
  induction os generalizing ps with
  | nil => rfl
  | cons o os ih =>
    rw [repairOutreachLinks_cons, ih, ids_innerRepair]

theorem ids_repairMaterial (ms : List MaterialTask) (ps : List Project) :
    (repairMaterialLinks ps ms).map (fun p => p.id) = ps.map (fun p => p.id) := by
  induction ms generalizing ps with
  | nil => rfl
  | cons m ms ih =>
    rw [repairMaterialLinks_cons]
    split
    · rw [ih]
    · rw [ih, ids_updateLast ps m.targetProject _ (materialAdd_id m.id)]

theorem jsMax_eq_max (a b : ℚ) : jsMax a b = max a b := by
  unfold jsMax
  split
  · exact (max_eq_right (by assumption)).symm
  · exact (max_eq_left (le_of_not_le (by assumption))).symm

theorem jsMin_eq_min (a b : ℚ) : jsMin a b = min a b := by
  unfold jsMin
  split
  · exact (min_eq_left (by assumption)).symm
  · exact (min_eq_right (le_of_not_le (by assumption))).symm

theorem clamp_general (q : ℚ) :
    0 ≤ clamp01_10 (JSNum.fin q) ∧ clamp01_10 (JSNum.fin q) ≤ 10 ∧
      clamp01_10 (JSNum.fin q) = (jsRound (jsMax 0 (jsMin 10 q) * 10) : ℚ) / 10 := by
  simp only [clamp01_10, jsMax_eq_max, jsMin_eq_min]
  refine ⟨le_max_left 0 _, max_le (by norm_num) ((min_le_left _ _).trans (by norm_num)), ?_⟩
  by_cases h1 : q < 0
  · have hr : jsRound (q * 10) ≤ 0 := by
      have h := Int.floor_le_floor (α := ℚ) (show q * 10 + 1/2 ≤ 1/2 by linarith)
      have h0 : ⌊(1:ℚ)/2⌋ = 0 := by norm_num
      rw [h0] at h
      simpa [jsRound] using h
    have hrq : ((jsRound (q * 10) : ℚ)) ≤ 0 := by exact_mod_cast hr
    have hdiv : ((jsRound (q * 10) : ℚ)) / 10 ≤ 0 := by linarith
    rw [min_eq_right (hdiv.trans (by norm_num)), max_eq_left hdiv]
    rw [min_eq_right (show q ≤ (10:ℚ) by linarith), max_eq_left (show q ≤ (0:ℚ) by linarith)]
    norm_num [jsRound]
  · by_cases h2 : 10 < q
    · have hr : (100 : ℤ) ≤ jsRound (q * 10) := by
        have h := Int.floor_le_floor (α := ℚ) (show (100:ℚ) + 1/2 ≤ q * 10 + 1/2 by linarith)
        have h100 : ⌊(100:ℚ) + 1/2⌋ = 100 := by norm_num
        rw [h100] at h
        simpa [jsRound] using h
      have hrq : (100 : ℚ) ≤ ((jsRound (q * 10) : ℚ)) := by exact_mod_cast hr
      have hdiv : (10 : ℚ) ≤ ((jsRound (q * 10) : ℚ)) / 10 := by linarith
      rw [min_eq_left hdiv, max_eq_right (by norm_num : (0:ℚ) ≤ 10)]
      rw [min_eq_left h2.le, max_eq_right (by norm_num : (0:ℚ) ≤ 10)]
      norm_num [jsRound]
    · push_neg at h1 h2
      rw [min_eq_right h2, max_eq_right h1]
      have hlo : (0 : ℤ) ≤ jsRound (q * 10) := by
        have h := Int.floor_le_floor (α := ℚ) (show (1:ℚ)/2 ≤ q * 10 + 1/2 by linarith)
        have h0 : ⌊(1:ℚ)/2⌋ = 0 := by norm_num
        rw [h0] at h
        simpa [jsRound] using h
      have hhi : jsRound (q * 10) ≤ 100 := by
        have h := Int.floor_le_floor (α := ℚ) (show q * 10 + 1/2 ≤ (100:ℚ) + 1/2 by linarith)
        have h100 : ⌊(100:ℚ) + 1/2⌋ = 100 := by norm_num
        rw [h100] at h
        simpa [jsRound] using h
      have hloq : (0 : ℚ) ≤ ((jsRound (q * 10) : ℚ)) := by exact_mod_cast hlo
      have hhiq : ((jsRound (q * 10) : ℚ)) ≤ 100 := by exact_mod_cast hhi
      rw [min_eq_right (show ((jsRound (q * 10) : ℚ)) / 10 ≤ 10 by linarith),
        max_eq_right (show (0:ℚ) ≤ ((jsRound (q * 10) : ℚ)) / 10 by linarith)]

theorem listMap_eq_self {α : Type} (l : List α) (f : α → α) (h : ∀ x ∈ l, f x = x) :
    l.map f = l := by
  induction l with
  | nil => rfl
  | cons a l ih =>
    rw [List.map_cons, h a (List.mem_cons_self _ _), ih (fun x hx => h x (List.mem_cons_of_mem _ hx))]

theorem filter_idem {α : Type} (l : List α) (p : α → Bool) :
    (l.filter p).filter p = l.filter p :=
  List.filter_eq_self.mpr (fun a ha => (List.mem_filter.mp ha).2)

theorem get_innerRepair_stable (oid : String) (pids : List String) :
    ∀ (ps : List Project) (i : Nat) (hps : i < ps.length) (t : Project),
      ps.get ⟨i, hps⟩ = t → (t.id ∈ pids → outreachAdd oid t = t) →
      ∃ h2 : i < (innerRepair oid pids ps).length,
        (innerRepair oid pids ps).get ⟨i, h2⟩ = t := by
  induction pids with
  | nil => intro ps i hps t ht _; exact ⟨hps, ht⟩
  | cons q qs ih =>
    intro ps i hps t ht hcase
    rw [innerRepair_cons]
    obtain ⟨h2, hget⟩ := get_updateLast_stable ps q (outreachAdd oid) i hps
      (fun hid => by
        rw [ht] at hid ⊢
        exact hcase (hid ▸ List.mem_cons_self _ _))
    rw [ht] at hget
    exact ih _ i h2 t hget (fun hmem => hcase (List.mem_cons_of_mem _ hmem))

theorem get_repairOutreach_stable (os : List Outreach) :
    ∀ (ps : List Project) (i : Nat) (hps : i < ps.length) (t : Project),
      ps.get ⟨i, hps⟩ = t →
      (∀ o ∈ os, t.id ∈ o.projectIds → outreachAdd o.id t = t) →
      ∃ h2 : i < (repairOutreachLinks ps os).length,
        (repairOutreachLinks ps os).get ⟨i, h2⟩ = t := by
  induction os with
  | nil => intro ps i hps t ht _; exact ⟨hps, ht⟩
  | cons o os ih =>
    intro ps i hps t ht hcase
    rw [repairOutreachLinks_cons]
    obtain ⟨h2, hget⟩ := get_innerRepair_stable o.id o.projectIds ps i hps t ht
      (hcase o (List.mem_cons_self _ _))
    exact ih _ i h2 t hget (fun o' ho' => hcase o' (List.mem_cons_of_mem _ ho'))

theorem get_repairMaterial_stable (ms : List MaterialTask) :
    ∀ (ps : List Project) (i : Nat) (hps : i < ps.length) (t : Project),
      ps.get ⟨i, hps⟩ = t →
      (∀ m ∈ ms, m.targetProject ≠ unassigned → t.id = m.targetProject →
        materialAdd m.id t = t) →
      ∃ h2 : i < (repairMaterialLinks ps ms).length,
        (repairMaterialLinks ps ms).get ⟨i, h2⟩ = t := by
  induction ms with
  | nil => intro ps i hps t ht _; exact ⟨hps, ht⟩
  | cons m ms ih =>
    intro ps i hps t ht hcase
    rw [repairMaterialLinks_cons]
    by_cases htg : m.targetProject = unassigned
    · rw [if_pos htg]
      exact ih ps i hps t ht (fun m' hm' => hcase m' (List.mem_cons_of_mem _ hm'))
    · rw [if_neg htg]
      obtain ⟨h2, hget⟩ := get_updateLast_stable ps m.targetProject (materialAdd m.id) i hps
        (fun hid => by
          rw [ht] at hid ⊢
          exact hcase m (List.mem_cons_self _ _) htg hid)
      rw [ht] at hget
      exact ih _ i h2 t hget (fun m' hm' => hcase m' (List.mem_cons_of_mem _ hm'))

theorem ids_filterProjectRefs (oi mi : List String) (ps : List Project) :
    (filterProjectRefs oi mi ps).map (fun p => p.id) = ps.map (fun p => p.id) := by
  unfold filterProjectRefs
  rw [List.map_map]
  rfl

theorem ids_pruneOutreachIds (oi : List String) (ps : List Project) :
    (pruneOutreachIds oi ps).map (fun p => p.id) = ps.map (fun p => p.id) := by
  unfold pruneOutreachIds
  rw [List.map_map]
  rfl

theorem ids_filterOutreachRefs (pi : List String) (os : List Outreach) :
    (filterOutreachRefs pi os).map (fun o => o.id) = os.map (fun o => o.id) := by
  unfold filterOutreachRefs
  rw [List.map_map]
  rfl

theorem ids_filterMaterialTargets (pi : List String) (ms : List MaterialTask) :
    (filterMaterialTargets pi ms).map (fun m => m.id) = ms.map (fun m => m.id) := by
  unfold filterMaterialTargets
  rw [List.map_map]
  rfl

theorem normalizeStore_projects (base : Store) (now : String) (input : Store) :
    (normalizeStore base now input).projects =
      pruneOutreachIds (outIds input)
        (repairMaterialLinks
          (repairOutreachLinks
            (filterProjectRefs (outIds input) (matIds input) input.projects)
            (filterOutreachRefs (projIds input) input.outreach))
          (filterMaterialTargets (projIds input) input.materials)) := rfl

theorem normalizeStore_outreach (base : Store) (now : String) (input : Store) :
    (normalizeStore base now input).outreach =
      filterOutreachRefs (projIds input) input.outreach := rfl

theorem normalizeStore_materials (base : Store) (now : String) (input : Store) :
    (normalizeStore base now input).materials =
      filterMaterialTargets (projIds input) input.materials := rfl

theorem normalizeStore_decisions (base : Store) (now : String) (input : Store) :
    (normalizeStore base now input).decisions =
      filterDecisions (projIds input) input.decisions := rfl

theorem normalizeStore_meta (base : Store) (now : String) (input : Store) :
    (normalizeStore base now input).meta =
      { version := 1, createdAt := jsOr input.meta.createdAt base.meta.createdAt,
        updatedAt := now } := rfl

theorem projIds_normalizeStore (base : Store) (now : String) (input : Store) :
    projIds (normalizeStore base now input) = projIds input := by
  unfold projIds
  rw [normalizeStore_projects, ids_pruneOutreachIds, ids_repairMaterial, ids_repairOutreach,
    ids_filterProjectRefs]

theorem outIds_normalizeStore (base : Store) (now : String) (input : Store) :
    outIds (normalizeStore base now input) = outIds input := by
  unfold outIds
  rw [normalizeStore_outreach, ids_filterOutreachRefs]

theorem matIds_normalizeStore (base : Store) (now : String) (input : Store) :
    matIds (normalizeStore base now input) = matIds input := by
  unfold matIds
  rw [normalizeStore_materials, ids_filterMaterialTargets]

theorem mem_id_of_mem_proj {ps : List Project} {p : Project} (h : p ∈ ps) :
    p.id ∈ ps.map (fun q => q.id) :=
  List.mem_map.mpr ⟨p, h, rfl⟩

theorem mem_id_of_mem_out {os : List Outreach} {o : Outreach} (h : o ∈ os) :
    o.id ∈ os.map (fun q => q.id) :=
  List.mem_map.mpr ⟨o, h, rfl⟩

theorem mem_id_of_mem_mat {ms : List MaterialTask} {m : MaterialTask} (h : m ∈ ms) :
    m.id ∈ ms.map (fun q => q.id) :=
  List.mem_map.mpr ⟨m, h, rfl⟩

theorem outreachLinked_prune (oid pid : String) (oi : List String) (ps : List Project)
    (hoid : oid ∈ oi) (h : OutreachLinked oid pid ps) :
    OutreachLinked oid pid (pruneOutreachIds oi ps) := by
  intro p hp
  unfold pruneOutreachIds at hp
  rw [lastMatch?_map ps
    (fun p => { p with outreachIds := p.outreachIds.filter (fun x => decide (x ∈ oi)) })
    (fun q => rfl) pid] at hp
  rcases Option.map_eq_some'.mp hp with ⟨q, hq, rfl⟩
  simp only [List.mem_filter]
  exact ⟨h q hq, by simpa using hoid⟩

theorem materialLinked_prune (mid tgt : String) (oi : List String) (ps : List Project)
    (h : MaterialLinked mid tgt ps) :
    MaterialLinked mid tgt (pruneOutreachIds oi ps) := by
  intro p hp
  unfold pruneOutreachIds at hp
  rw [lastMatch?_map ps
    (fun p => { p with outreachIds := p.outreachIds.filter (fun x => decide (x ∈ oi)) })
    (fun q => rfl) tgt] at hp
  rcases Option.map_eq_some'.mp hp with ⟨q, hq, rfl⟩
  exact h q hq

theorem result_outreachLinked (base : Store) (now : String) (input : Store)
    (o : Outreach) (ho : o ∈ (normalizeStore base now input).outreach)
    (pid : String) (hpid : pid ∈ o.projectIds) :
    OutreachLinked o.id pid (normalizeStore base now input).projects := by
  rw [normalizeStore_outreach] at ho
  rw [normalizeStore_projects]
  apply outreachLinked_prune
  · have := mem_id_of_mem_out ho
    rw [ids_filterOutreachRefs] at this
    exact this
  · apply outreachLinked_repairMaterial
    exact repairOutreach_establishes _ _ o ho pid hpid

theorem result_materialLinked (base : Store) (now : String) (input : Store)
    (m : MaterialTask) (hm : m ∈ (normalizeStore base now input).materials)
    (ht : m.targetProject ≠ unassigned) :
    MaterialLinked m.id m.targetProject (normalizeStore base now input).projects := by
  rw [normalizeStore_materials] at hm
  rw [normalizeStore_projects]
  apply materialLinked_prune
  exact repairMaterial_establishes _ _ m hm ht

theorem result_outreachIds_sub (base : Store) (now : String) (input : Store)
    (p : Project) (hp : p ∈ (normalizeStore base now input).projects)
    (x : String) (hx : x ∈ p.outreachIds) : x ∈ outIds input := by
  rw [normalizeStore_projects] at hp
  unfold pruneOutreachIds at hp
  rcases List.mem_map.mp hp with ⟨q, _, rfl⟩
  simp only [List.mem_filter] at hx
  exact of_decide_eq_true hx.2

theorem result_materialTaskIds_sub (base : Store) (now : String) (input : Store)
    (p : Project) (hp : p ∈ (normalizeStore base now input).projects)
    (x : String) (hx : x ∈ p.materialTaskIds) : x ∈ matIds input := by
  rw [normalizeStore_projects] at hp
  unfold pruneOutreachIds at hp
  rcases List.mem_map.mp hp with ⟨q, hq, rfl⟩
  have key : ∀ r ∈ repairMaterialLinks
      (repairOutreachLinks
        (filterProjectRefs (outIds input) (matIds input) input.projects)
        (filterOutreachRefs (projIds input) input.outreach))
      (filterMaterialTargets (projIds input) input.materials),
      ∀ y ∈ r.materialTaskIds, y ∈ matIds input := by
    apply forall_repairMaterial
    · apply forall_repairOutreach
      · intro r hr y hy
        unfold filterProjectRefs at hr
        rcases List.mem_map.mp hr with ⟨r0, _, rfl⟩
        simp only [List.mem_filter] at hy
        exact of_decide_eq_true hy.2
      · intro o _ r hr y hy
        rw [outreachAdd_mats] at hy
        exact hr y hy
    · intro m hm _ r _ hr y hy
      unfold materialAdd at hy
      by_cases hin : m.id ∈ r.materialTaskIds
      · rw [if_pos hin] at hy
        exact hr y hy
      · rw [if_neg hin] at hy
        simp only at hy
        rcases (mem_addToSet _ _ _).mp hy with h | rfl
        · exact hr y h
        · have := mem_id_of_mem_mat hm
          rw [ids_filterMaterialTargets] at this
          exact this
  exact key q hq x hx

theorem result_material_targets (base : Store) (now : String) (input : Store)
    (m : MaterialTask) (hm : m ∈ (normalizeStore base now input).materials) :
    m.targetProject = unassigned ∨ m.targetProject ∈ projIds input := by
  rw [normalizeStore_materials] at hm
  unfold filterMaterialTargets at hm
  rcases List.mem_map.mp hm with ⟨m0, _, rfl⟩
  simp only
  split
  · assumption
  · exact Or.inl rfl

theorem result_outreach_projectIds_sub (base : Store) (now : String) (input : Store)
    (o : Outreach) (ho : o ∈ (normalizeStore base now input).outreach)
    (pid : String) (hpid : pid ∈ o.projectIds) : pid ∈ projIds input := by
  rw [normalizeStore_outreach] at ho
  unfold filterOutreachRefs at ho
  rcases List.mem_map.mp ho with ⟨o0, _, rfl⟩
  simp only [List.mem_filter] at hpid
  exact of_decide_eq_true hpid.2

/-- C2: in the result of `normalizeStore`, every project's outreachIds and
materialTaskIds name existing entities; every outreach's projectIds names
an existing project that lists the outreach back; and every assigned
material targets an existing project that lists the material back. -/
theorem c2_normalize_closure (base : Store) (now : String) (input : Store) :
    (∀ p ∈ (normalizeStore base now input).projects,
        ∀ x ∈ p.outreachIds, ∃ o ∈ (normalizeStore base now input).outreach, o.id = x) ∧
    (∀ p ∈ (normalizeStore base now input).projects,
        ∀ x ∈ p.materialTaskIds, ∃ m ∈ (normalizeStore base now input).materials, m.id = x) ∧
    (∀ o ∈ (normalizeStore base now input).outreach,
        ∀ pid ∈ o.projectIds, ∃ p ∈ (normalizeStore base now input).projects,
          p.id = pid ∧ o.id ∈ p.outreachIds) ∧
    (∀ m ∈ (normalizeStore base now input).materials, m.targetProject ≠ unassigned →
        ∃ p ∈ (normalizeStore base now input).projects,
          p.id = m.targetProject ∧ m.id ∈ p.materialTaskIds) := by
  refine ⟨?_, ?_, ?_, ?_⟩
  · intro p hp x hx
    have hsub := result_outreachIds_sub base now input p hp x hx
    rw [← outIds_normalizeStore base now input] at hsub
    rcases List.mem_map.mp hsub with ⟨o, ho, rfl⟩
    exact ⟨o, ho, rfl⟩
  · intro p hp x hx
    have hsub := result_materialTaskIds_sub base now input p hp x hx
    rw [← matIds_normalizeStore base now input] at hsub
    rcases List.mem_map.mp hsub with ⟨m, hm, rfl⟩
    exact ⟨m, hm, rfl⟩
  · intro o ho pid hpid
    have hin : pid ∈ projIds input := result_outreach_projectIds_sub base now input o ho pid hpid
    rw [← projIds_normalizeStore base now input] at hin
    obtain ⟨p, hlm⟩ := lastMatch?_isSome_of_mem (normalizeStore base now input).projects pid hin
    obtain ⟨hmem, hid⟩ := lastMatch?_mem _ _ _ hlm
    exact ⟨p, hmem, hid, result_outreachLinked base now input o ho pid hpid p hlm⟩
  · intro m hm ht
    have hin : m.targetProject ∈ projIds input := by
      rcases result_material_targets base now input m hm with h | h
      · exact absurd h ht
      · exact h
    rw [← projIds_normalizeStore base now input] at hin
    obtain ⟨p, hlm⟩ := lastMatch?_isSome_of_mem (normalizeStore base now input).projects _ hin
    obtain ⟨hmem, hid⟩ := lastMatch?_mem _ _ _ hlm
    exact ⟨p, hmem, hid, result_materialLinked base now input m hm ht p hlm⟩

/-- C2 witness: on a concrete document whose links all need repair, the
closure holds with the repaired project visible. -/
theorem c2_normalize_closure_witness :
    ∃ p ∈ (normalizeStore emptyBase "T" c2Store).projects,
      p.id = "p1" ∧ "o1" ∈ p.outreachIds := by
  have h := (c2_normalize_closure emptyBase "T" c2Store).2.2.1
  have := h (blankOutreach "o1" ["p1"]) (by decide) "p1" (by decide)
  simpa using this

/-- C1 counterexample: `normalizeStore` keeps a project-side link whose
outreach side never listed the project, and keeps a material-task id whose
material targets a different project — both halves of the claimed
bidirectional closure fail on this document. -/
theorem c1_counterexample :
    (¬ ∀ p ∈ (normalizeStore emptyBase "T" c1Store).projects,
        ∀ x ∈ p.outreachIds, ∃ o ∈ (normalizeStore emptyBase "T" c1Store).outreach,
          o.id = x ∧ p.id ∈ o.projectIds) ∧
    (¬ ∀ p ∈ (normalizeStore emptyBase "T" c1Store).projects,
        ∀ x ∈ p.materialTaskIds, ∃ m ∈ (normalizeStore emptyBase "T" c1Store).materials,
          m.id = x ∧ (m.targetProject = p.id ∨ m.targetProject = unassigned)) := by
  constructor
  · decide
  · decide

/-- C1 (amended): every id in a normalized project's outreachIds names an
Outreach present in the result, and every id in its materialTaskIds names
a Material present in the result (the reverse-link and target conditions
do not hold in general). -/
theorem c1_link_targets_exist (base : Store) (now : String) (input : Store) :
    ∀ p ∈ (normalizeStore base now input).projects,
      (∀ x ∈ p.outreachIds, ∃ o ∈ (normalizeStore base now input).outreach, o.id = x) ∧
      (∀ x ∈ p.materialTaskIds, ∃ m ∈ (normalizeStore base now input).materials, m.id = x) := by
  intro p hp
  constructor
  · intro x hx
    have hsub := result_outreachIds_sub base now input p hp x hx
    rw [← outIds_normalizeStore base now input] at hsub
    rcases List.mem_map.mp hsub with ⟨o, ho, rfl⟩
    exact ⟨o, ho, rfl⟩
  · intro x hx
    have hsub := result_materialTaskIds_sub base now input p hp x hx
    rw [← matIds_normalizeStore base now input] at hsub
    rcases List.mem_map.mp hsub with ⟨m, hm, rfl⟩
    exact ⟨m, hm, rfl⟩

/-- C1 witness: the kept link "o1" of the counterexample document does
name an outreach present in the result. -/
theorem c1_link_targets_exist_witness :
    ∃ o ∈ (normalizeStore emptyBase "T" c1Store).outreach, o.id = "o1" := by
  have h := c1_link_targets_exist emptyBase "T" c1Store
    (blankProject "p1" ["o1"] ["m1"]) (by decide)
  exact h.1 "o1" (by decide)

theorem store_eq_of_fields {a b : Store} (h1 : a.projects = b.projects)
    (h2 : a.outreach = b.outreach) (h3 : a.materials = b.materials)
    (h4 : a.decisions = b.decisions) (h5 : a.meta = b.meta) : a = b := by
  cases a; cases b; simp_all

theorem jsOr_idem (a b : String) : jsOr (jsOr a b) b = jsOr a b := by
  unfold jsOr
  by_cases ha : a = "" <;> by_cases hb : b = "" <;> simp [ha, hb]

theorem filterOutreachRefs_idem (pi : List String) (os : List Outreach) :
    filterOutreachRefs pi (filterOutreachRefs pi os) = filterOutreachRefs pi os := by
  apply listMap_eq_self
  intro o ho
  rcases List.mem_map.mp ho with ⟨o0, _, rfl⟩
  simp only
  rw [filter_idem]

theorem filterMaterialTargets_idem (pi : List String) (ms : List MaterialTask) :
    filterMaterialTargets pi (filterMaterialTargets pi ms) = filterMaterialTargets pi ms := by
  apply listMap_eq_self
  intro m hm
  rcases List.mem_map.mp hm with ⟨m0, _, rfl⟩
  simp only
  by_cases hc : m0.targetProject = unassigned ∨ m0.targetProject ∈ pi
  · rw [if_pos hc, if_pos hc]
  · rw [if_neg hc, if_pos (Or.inl rfl)]

theorem decisions_map_eta (l : List Decision) :
    l.map (fun d => { d with postResult := d.postResult }) = l :=
  listMap_eq_self l _ (fun d _ => rfl)

theorem filterDecisions_idem (pi : List String) (ds : List Decision) :
    filterDecisions pi (filterDecisions pi ds) = filterDecisions pi ds := by
  unfold filterDecisions
  rw [decisions_map_eta, decisions_map_eta, filter_idem]

theorem filterProjectRefs_eq_self (oi mi : List String) (ps : List Project)
    (h1 : ∀ p ∈ ps, p.outreachIds.filter (fun x => decide (x ∈ oi)) = p.outreachIds)
    (h2 : ∀ p ∈ ps, p.materialTaskIds.filter (fun x => decide (x ∈ mi)) = p.materialTaskIds) :
    filterProjectRefs oi mi ps = ps := by
  apply listMap_eq_self
  intro p hp
  rw [h1 p hp, h2 p hp]

theorem pruneOutreachIds_eq_self (oi : List String) (ps : List Project)
    (h1 : ∀ p ∈ ps, p.outreachIds.filter (fun x => decide (x ∈ oi)) = p.outreachIds) :
    pruneOutreachIds oi ps = ps := by
  apply listMap_eq_self
  intro p hp
  rw [h1 p hp]

theorem result_outreachIds_filtered (base : Store) (now : String) (input : Store) :
    ∀ p ∈ (normalizeStore base now input).projects,
      p.outreachIds.filter (fun x => decide (x ∈ outIds input)) = p.outreachIds := by
  intro p hp
  rw [normalizeStore_projects] at hp
  unfold pruneOutreachIds at hp
  rcases List.mem_map.mp hp with ⟨q, _, rfl⟩
  simp only
  rw [filter_idem]

theorem result_materialTaskIds_filtered (base : Store) (now : String) (input : Store) :
    ∀ p ∈ (normalizeStore base now input).projects,
      p.materialTaskIds.filter (fun x => decide (x ∈ matIds input)) = p.materialTaskIds := by
  intro p hp
  apply List.filter_eq_self.mpr
  intro x hx
  exact decide_eq_true (result_materialTaskIds_sub base now input p hp x hx)

/-- C3: `normalizeStore` is idempotent.  With the non-deterministic seed
and timestamp fixed as parameters, applying it twice gives a result equal
to applying it once (in particular equal ignoring `meta.updatedAt`). -/
theorem c3_normalize_idempotent (base : Store) (now : String) (input : Store) :
    normalizeStore base now (normalizeStore base now input) = normalizeStore base now input := by
  apply store_eq_of_fields
  · -- projects
    conv_lhs => rw [normalizeStore_projects]
    rw [projIds_normalizeStore, outIds_normalizeStore, matIds_normalizeStore,
      normalizeStore_outreach, normalizeStore_materials,
      filterOutreachRefs_idem, filterMaterialTargets_idem]
    rw [filterProjectRefs_eq_self (outIds input) (matIds input) _
      (result_outreachIds_filtered base now input)
      (result_materialTaskIds_filtered base now input)]
    rw [repairOutreach_eq_self (filterOutreachRefs (projIds input) input.outreach)
      ((normalizeStore base now input).projects)
      (fun o ho pid hpid => result_outreachLinked base now input o ho pid hpid)]
    rw [repairMaterial_eq_self (filterMaterialTargets (projIds input) input.materials)
      ((normalizeStore base now input).projects)
      (fun m hm ht => result_materialLinked base now input m hm ht)]
    rw [pruneOutreachIds_eq_self _ _ (result_outreachIds_filtered base now input)]
  · -- outreach
    rw [normalizeStore_outreach base now (normalizeStore base now input),
      projIds_normalizeStore, normalizeStore_outreach base now input,
      filterOutreachRefs_idem]
  · -- materials
    rw [normalizeStore_materials base now (normalizeStore base now input),
      projIds_normalizeStore, normalizeStore_materials base now input,
      filterMaterialTargets_idem]
  · -- decisions
    rw [normalizeStore_decisions base now (normalizeStore base now input),
      projIds_normalizeStore, normalizeStore_decisions base now input,
      filterDecisions_idem]
  · -- meta
    rw [normalizeStore_meta base now (normalizeStore base now input),
      normalizeStore_meta base now input, jsOr_idem]

theorem get_map_ex {α β : Type} (f : α → β) (l : List α) (i : Nat) (h : i < l.length) :
    ∃ h2 : i < (l.map f).length, (l.map f).get ⟨i, h2⟩ = f (l.get ⟨i, h⟩) := by
  refine ⟨by simpa using h, ?_⟩
  simp [List.get_eq_getElem, List.getElem_map]

/-- C5 counterexample: on a document with a dangling project-side id and
an unreflected outreach-side link, the normalized outreachIds are NOT the
original list with just the dangling ids removed — the repair pass adds
the outreach-held link. -/
theorem c5_counterexample :
    ¬ ((normalizeStore emptyBase "T" c5Store).projects.map (fun p => p.outreachIds) =
       c5Store.projects.map
         (fun p => p.outreachIds.filter (fun x => decide (x ∈ outIds c5Store)))) := by
  decide

/-- C5 (amended): if no outreach record holds an unreflected link to the
project at index `i` and no material targets it without being listed,
normalization leaves that project's outreachIds and materialTaskIds
exactly equal to the originals filtered to existing ids (same ids, same
relative order). -/
theorem c5_prune_exact (base : Store) (now : String) (input : Store) (i : Nat)
    (hi : i < input.projects.length)
    (hout : ∀ o ∈ input.outreach, (input.projects.get ⟨i, hi⟩).id ∈ o.projectIds →
      o.id ∈ (input.projects.get ⟨i, hi⟩).outreachIds)
    (hmat : ∀ m ∈ input.materials, m.targetProject = (input.projects.get ⟨i, hi⟩).id →
      m.id ∈ (input.projects.get ⟨i, hi⟩).materialTaskIds) :
    ∃ h2 : i < (normalizeStore base now input).projects.length,
      ((normalizeStore base now input).projects.get ⟨i, h2⟩).outreachIds =
        (input.projects.get ⟨i, hi⟩).outreachIds.filter
          (fun x => decide (x ∈ outIds input)) ∧
      ((normalizeStore base now input).projects.get ⟨i, h2⟩).materialTaskIds =
        (input.projects.get ⟨i, hi⟩).materialTaskIds.filter
          (fun x => decide (x ∈ matIds input)) := by
  obtain ⟨hA, hgetA⟩ := get_map_ex
    (fun p => { p with
      outreachIds := p.outreachIds.filter (fun x => decide (x ∈ outIds input)),
      materialTaskIds := p.materialTaskIds.filter (fun x => decide (x ∈ matIds input)) })
    input.projects i hi
  obtain ⟨hB, hgetB⟩ := get_repairOutreach_stable
    (filterOutreachRefs (projIds input) input.outreach)
    (filterProjectRefs (outIds input) (matIds input) input.projects) i hA _ hgetA
    (by
      intro o ho hid
      rcases List.mem_map.mp ho with ⟨o0, ho0, rfl⟩
      simp only [List.mem_filter] at hid
      have hlink := hout o0 ho0 hid.1
      unfold outreachAdd
      rw [if_pos]
      simp only [List.mem_filter]
      exact ⟨hlink, decide_eq_true (mem_id_of_mem_out ho0)⟩)
  obtain ⟨hC, hgetC⟩ := get_repairMaterial_stable
    (filterMaterialTargets (projIds input) input.materials)
    _ i hB _ hgetB
    (by
      intro m hm ht hid
      rcases List.mem_map.mp hm with ⟨m0, hm0, rfl⟩
      simp only at ht hid ⊢
      by_cases hc : m0.targetProject = unassigned ∨ m0.targetProject ∈ projIds input
      · rw [if_pos hc] at ht hid
        have hlink := hmat m0 hm0 hid.symm
        unfold materialAdd
        rw [if_pos]
        simp only [List.mem_filter]
        exact ⟨hlink, decide_eq_true (mem_id_of_mem_mat hm0)⟩
      · rw [if_neg hc] at ht
        exact absurd rfl ht)
  obtain ⟨hD, hgetD⟩ := get_map_ex
    (fun p => { p with outreachIds := p.outreachIds.filter (fun x => decide (x ∈ outIds input)) })
    _ i hC
  rw [hgetC] at hgetD
  refine ⟨hD, ?_, ?_⟩
  · exact (congrArg Project.outreachIds hgetD).trans (filter_idem _ _)
  · exact congrArg Project.materialTaskIds hgetD

/-- C5 witness: the spec's own example — outreachIds = ["missing", "o1"],
only o1 exists, no reverse links — normalizes to exactly ["o1"]. -/
theorem c5_prune_exact_witness :
    ∃ h2 : 0 < (normalizeStore emptyBase "T" c5ExampleStore).projects.length,
      ((normalizeStore emptyBase "T" c5ExampleStore).projects.get ⟨0, h2⟩).outreachIds =
        ["o1"] := by
  obtain ⟨h2, h⟩ := c5_prune_exact emptyBase "T" c5ExampleStore 0 (by decide)
    (by decide) (by decide)
  refine ⟨h2, ?_⟩
  rw [h.1]
  decide

theorem normalize_preserves_ab (base : Store) (now : String) (s0 : Store)
    (a b mid : String) (hab : a ≠ b) (hmidMI : mid ∈ matIds s0)
    (hPa : ∀ p ∈ s0.projects, p.id = a → mid ∉ p.materialTaskIds)
    (hPb : ∀ p ∈ s0.projects, p.id = b → mid ∈ p.materialTaskIds)
    (hmat : ∀ m ∈ s0.materials, m.id = mid → m.targetProject = b)
    (hbPI : b ∈ projIds s0) :
    ∀ p ∈ (normalizeStore base now s0).projects,
      (p.id = a → mid ∉ p.materialTaskIds) ∧ (p.id = b → mid ∈ p.materialTaskIds) := by
  intro p hp
  rw [normalizeStore_projects] at hp
  unfold pruneOutreachIds at hp
  rcases List.mem_map.mp hp with ⟨q, hq, rfl⟩
  have key : ∀ r ∈ repairMaterialLinks
      (repairOutreachLinks
        (filterProjectRefs (outIds s0) (matIds s0) s0.projects)
        (filterOutreachRefs (projIds s0) s0.outreach))
      (filterMaterialTargets (projIds s0) s0.materials),
      (r.id = a → mid ∉ r.materialTaskIds) ∧ (r.id = b → mid ∈ r.materialTaskIds) := by
    apply forall_repairMaterial
    · apply forall_repairOutreach
      · intro r hr
        rcases List.mem_map.mp hr with ⟨r0, hr0, rfl⟩
        constructor
        · intro hida hmem
          simp only [List.mem_filter] at hmem
          exact hPa r0 hr0 hida hmem.1
        · intro hidb
          simp only [List.mem_filter]
          exact ⟨hPb r0 hr0 hidb, decide_eq_true hmidMI⟩
      · intro o _ r hPr
        constructor
        · intro hida
          rw [outreachAdd_mats]
          exact hPr.1 ((outreachAdd_id o.id r) ▸ hida)
        · intro hidb
          rw [outreachAdd_mats]
          exact hPr.2 ((outreachAdd_id o.id r) ▸ hidb)
    · intro m' hm' htg r hridtg hPr
      constructor
      · intro hida
        have hrida : r.id = a := (materialAdd_id m'.id r) ▸ hida
        have hm'target : m'.targetProject = a := by rw [← hridtg, hrida]
        have hm'ne : m'.id ≠ mid := by
          intro hEq
          rcases List.mem_map.mp hm' with ⟨x, hx, rfl⟩
          simp only at hEq hm'target
          have hxt := hmat x hx hEq
          rw [hxt] at hm'target
          rw [if_pos (Or.inr hbPI)] at hm'target
          exact hab hm'target.symm
        unfold materialAdd
        split
        · exact hPr.1 hrida
        · simp only
          intro hmem
          rcases (mem_addToSet _ _ _).mp hmem with h | h
          · exact hPr.1 hrida h
          · exact hm'ne h.symm
      · intro hidb
        have hridb : r.id = b := (materialAdd_id m'.id r) ▸ hidb
        exact materialAdd_mono m'.id r mid (hPr.2 hridb)
  have hk := key q hq
  exact ⟨fun hida hmem => by
      simp only at hida hmem
      exact hk.1 hida hmem,
    fun hidb => by
      simp only at hidb ⊢
      exact hk.2 hidb⟩

theorem listMap_congr {α β : Type} (l : List α) (f g : α → β) (h : ∀ x ∈ l, f x = g x) :
    l.map f = l.map g := by
  induction l with
  | nil => rfl
  | cons a l ih =>
    rw [List.map_cons, List.map_cons, h a (List.mem_cons_self _ _),
      ih (fun x hx => h x (List.mem_cons_of_mem _ hx))]

/-- C6: changing a material's target from project id `a` to project id `b`
through `updateMaterial`'s store transform yields a store where the task id
is absent from every `a`-project's materialTaskIds and present in every
`b`-project's — never in both. -/
theorem c6_reassign_atomic (base : Store) (now : String) (s : Store) (mid : ID)
    (patch : MaterialPatch) (m : MaterialTask) (a b : String)
    (hfind : s.materials.find? (fun x => x.id == mid) = some m)
    (hold : m.targetProject = a) (hpt : patch.targetProject = some b)
    (hpid : patch.id = none) (hab : a ≠ b) (hau : a ≠ unassigned) (hbu : b ≠ unassigned)
    (hB : b ∈ projIds s) :
    ∀ p ∈ (updateMaterialStore base now s mid patch).projects,
      (p.id = a → mid ∉ p.materialTaskIds) ∧ (p.id = b → mid ∈ p.materialTaskIds) := by
  have hm_mem : m ∈ s.materials := List.mem_of_find?_eq_some hfind
  have hm_id : m.id = mid := by simpa using List.find?_some hfind
  have hred : updateMaterialStore base now s mid patch =
      updateMaterialGo base now s mid patch m := by
    unfold updateMaterialStore
    rw [hfind]
  rw [hred]
  unfold updateMaterialGo
  rw [hpt, Option.getD_some, hold, if_pos (show b ≠ a from fun h => hab h.symm)]
  apply normalize_preserves_ab base now _ a b mid hab
  · -- mid is a material id of the patched store
    show mid ∈ (s.materials.map (fun x =>
      if x.id == mid then applyMaterialPatch x patch else x)).map (fun x => x.id)
    apply List.mem_map.mpr
    refine ⟨applyMaterialPatch m patch, ?_, ?_⟩
    · apply List.mem_map.mpr
      exact ⟨m, hm_mem, by rw [if_pos (by simpa using hm_id)]⟩
    · show patch.id.getD m.id = mid
      rw [hpid, Option.getD_none]
      exact hm_id
  · -- a-projects no longer hold mid
    intro p hp hida
    rcases List.mem_map.mp hp with ⟨p0, _, rfl⟩
    simp only at hida ⊢
    unfold updTaskIds
    rw [if_neg (fun hc => hab (hida ▸ hc.2.symm).symm)]
    rw [if_pos ⟨hau, hida⟩]
    intro hmem
    simp only [List.mem_filter] at hmem
    simpa using hmem.2
  · -- b-projects hold mid
    intro p hp hidb
    rcases List.mem_map.mp hp with ⟨p0, _, rfl⟩
    simp only at hidb ⊢
    unfold updTaskIds
    rw [if_pos ⟨hbu, hidb⟩]
    exact self_mem_addToSet _ _
  · -- every material named mid now targets b
    intro e he hEq
    rcases List.mem_map.mp he with ⟨x, hx, rfl⟩
    by_cases hxid : (x.id == mid) = true
    · rw [if_pos hxid] at hEq ⊢
      show patch.targetProject.getD x.targetProject = b
      rw [hpt, Option.getD_some]
    · rw [if_neg hxid] at hEq
      exact absurd (by simpa using hEq) (by simpa using hxid)
  · -- b is still a project id of the patched store
    unfold projIds
    simp only
    rw [List.map_map]
    exact hB

/-- C6 witness: on the concrete reassignment document, m1 ends up listed
by pb and not by pa. -/
theorem c6_reassign_atomic_witness :
    ({ blankProject "pb" [] [] with materialTaskIds := ["m1"] } : Project) ∈
      (updateMaterialStore emptyBase "T" c6Store "m1" c6Patch).projects ∧
    "m1" ∈ ({ blankProject "pb" [] [] with materialTaskIds := ["m1"] } : Project).materialTaskIds ∧
    (blankProject "pa" [] [] : Project) ∈
      (updateMaterialStore emptyBase "T" c6Store "m1" c6Patch).projects ∧
    "m1" ∉ (blankProject "pa" [] [] : Project).materialTaskIds := by
  refine ⟨by decide, ?_, by decide, ?_⟩
  · exact (c6_reassign_atomic emptyBase "T" c6Store "m1" c6Patch
      (blankMaterial "m1" "pa") "pa" "pb" (by decide) (by decide) (by decide) (by decide)
      (by decide) (by decide) (by decide) (by decide) _ (by decide)).2 (by decide)
  · exact (c6_reassign_atomic emptyBase "T" c6Store "m1" c6Patch
      (blankMaterial "m1" "pa") "pa" "pb" (by decide) (by decide) (by decide) (by decide)
      (by decide) (by decide) (by decide) (by decide) _ (by decide)).1 (by decide)

theorem get_filterMaterialTargets (pi : List String) (ms : List MaterialTask) (i : Nat)
    (h : i < ms.length) :
    ∃ h2 : i < (filterMaterialTargets pi ms).length,
      (filterMaterialTargets pi ms).get ⟨i, h2⟩ =
        { ms.get ⟨i, h⟩ with
          targetProject :=
            if (ms.get ⟨i, h⟩).targetProject = unassigned ∨
                (ms.get ⟨i, h⟩).targetProject ∈ pi
            then (ms.get ⟨i, h⟩).targetProject else unassigned } := by
  unfold filterMaterialTargets
  exact get_map_ex _ ms i h

theorem mem_of_filterDecisions (pi : List String) (ds : List Decision) (d : Decision)
    (h : d ∈ filterDecisions pi ds) : d ∈ ds := by
  unfold filterDecisions at h
  rw [decisions_map_eta] at h
  exact List.mem_of_mem_filter h

/-- C7: deleting a project cascades — no decision owned by it survives, its
id is stripped from every outreach record, every material that targeted it
is reset to the unassigned sentinel, and no material is deleted (the id
list is unchanged). -/
theorem c7_delete_cascade (base : Store) (now : String) (s : Store) (pid : ID)
    (_hP : ∃ P ∈ s.projects, P.id = pid) :
    (∀ d ∈ (deleteProjectStore base now s pid).decisions, d.projectInternalId ≠ pid) ∧
    (∀ o ∈ (deleteProjectStore base now s pid).outreach, pid ∉ o.projectIds) ∧
    ((deleteProjectStore base now s pid).materials.map (fun m => m.id) =
      s.materials.map (fun m => m.id)) ∧
    (∀ i, ∀ hi : i < s.materials.length,
      (s.materials.get ⟨i, hi⟩).targetProject = pid →
      ∃ h2 : i < (deleteProjectStore base now s pid).materials.length,
        ((deleteProjectStore base now s pid).materials.get ⟨i, h2⟩).targetProject =
          unassigned) := by
  refine ⟨?_, ?_, ?_, ?_⟩
  · intro d hd
    unfold deleteProjectStore at hd
    rw [normalizeStore_decisions] at hd
    have hd2 := mem_of_filterDecisions _ _ _ hd
    simp only [List.mem_filter] at hd2
    have := hd2.2
    intro hEq
    rw [hEq] at this
    simp at this
  · intro o ho
    unfold deleteProjectStore at ho
    rw [normalizeStore_outreach] at ho
    unfold filterOutreachRefs at ho
    rcases List.mem_map.mp ho with ⟨o1, ho1, rfl⟩
    rcases List.mem_map.mp ho1 with ⟨o0, _, rfl⟩
    intro hmem
    simp only [List.mem_filter] at hmem
    simpa using hmem.1.2
  · unfold deleteProjectStore
    rw [normalizeStore_materials, ids_filterMaterialTargets, List.map_map]
    apply listMap_congr
    intro x _
    show (if (x.targetProject == pid) = true then { x with targetProject := unassigned }
      else x).id = x.id
    split <;> rfl
  · intro i hi htgt
    obtain ⟨hR, e1⟩ := get_map_ex
      (fun m : MaterialTask =>
        if m.targetProject == pid then { m with targetProject := unassigned } else m)
      s.materials i hi
    rw [if_pos (by simpa using htgt)] at e1
    obtain ⟨hS, e2⟩ := get_filterMaterialTargets
      (projIds
        { s with
          projects := s.projects.filter (fun p => !(p.id == pid)),
          decisions := s.decisions.filter (fun d => !(d.projectInternalId == pid)),
          outreach := s.outreach.map (fun o =>
            { o with projectIds := o.projectIds.filter (fun q => !(q == pid)) }),
          materials := s.materials.map (fun m =>
            if m.targetProject == pid then { m with targetProject := unassigned } else m) })
      (s.materials.map (fun m =>
        if m.targetProject == pid then { m with targetProject := unassigned } else m))
      i hR
    rw [e1] at e2
    refine ⟨hS, ?_⟩
    refine (congrArg MaterialTask.targetProject e2).trans ?_
    split <;> rfl

/-- C7 witness: the spec's end-to-end scenario on a concrete document —
after deleting p1, o1 holds no link, both materials survive, and m2 is
unassigned. -/
theorem c7_delete_cascade_witness :
    ((deleteProjectStore emptyBase "T" c7Store "p1").materials.map (fun m => m.id) =
      ["m1", "m2"]) ∧
    (∃ h2 : 1 < (deleteProjectStore emptyBase "T" c7Store "p1").materials.length,
      ((deleteProjectStore emptyBase "T" c7Store "p1").materials.get ⟨1, h2⟩).targetProject =
        unassigned) := by
  have h := c7_delete_cascade emptyBase "T" c7Store "p1"
    ⟨blankProject "p1" ["o1"] ["m2"], by decide, rfl⟩
  constructor
  · exact h.2.2.1.trans (by decide)
  · exact h.2.2.2 1 (by decide) (by decide)

/-- C8: the score clamp maps 11.2 to 10, -1 to 0 and 7.36 to 7.4; for
every finite rational input the result is within 0..10 and equals the
input clamped to 0..10 then rounded to one decimal; every non-finite
input gives 0. -/
theorem c8_clamp_spec :
    clamp01_10 (JSNum.fin (112/10)) = 10 ∧
    clamp01_10 (JSNum.fin (-1)) = 0 ∧
    clamp01_10 (JSNum.fin (736/100)) = 74/10 ∧
    (∀ q : ℚ, 0 ≤ clamp01_10 (JSNum.fin q) ∧ clamp01_10 (JSNum.fin q) ≤ 10 ∧
      clamp01_10 (JSNum.fin q) = (jsRound (jsMax 0 (jsMin 10 q) * 10) : ℚ) / 10) ∧
    clamp01_10 JSNum.nan = 0 ∧ clamp01_10 JSNum.inf = 0 ∧ clamp01_10 JSNum.ninf = 0 := by
  refine ⟨?_, ?_, ?_, clamp_general, rfl, rfl, rfl⟩
  · norm_num [clamp01_10, jsRound, jsMax, jsMin]
  · norm_num [clamp01_10, jsRound, jsMax, jsMin]
  · norm_num [clamp01_10, jsRound, jsMax, jsMin]

/-- C10 counterexample: a project with fit = 0 exports "0" in the Fit
column, not the empty string — the row pre-stringifies scores, and the
string "0" is truthy. -/
theorem c10_counterexample :
    ((projectCsvRow c10Project).map csvCell)[8]? = some "0" ∧
    ¬ (((projectCsvRow c10Project).map csvCell)[8]? = some "") := by
  constructor
  · decide
  · decide

/-- C10 (amended): every serialized cell is `csvEscape(String(x || ""))`
of the raw row entry; since the Fit/Risk/ROI entries are pre-stringified
with `String(p.fit)`, a fit of 0 exports as "0", while a raw empty string
field (such as projectId) exports as the empty cell. -/
theorem c10_csv_cells (p : Project) :
    (((projectCsvRow p).map csvCell)[8]? = some (csvCell (ratToString p.fit))) ∧
    (p.fit = 0 → ((projectCsvRow p).map csvCell)[8]? = some "0") ∧
    (p.projectId = "" → ((projectCsvRow p).map csvCell)[0]? = some (csvCell p.projectId)) ∧
    (p.projectId = "" → ((projectCsvRow p).map csvCell)[0]? = some "") := by
  refine ⟨rfl, ?_, fun _ => rfl, ?_⟩
  · intro h
    rw [show ((projectCsvRow p).map csvCell)[8]? = some (csvCell (ratToString p.fit)) from rfl,
      h]
    rfl
  · intro h
    rw [show ((projectCsvRow p).map csvCell)[0]? = some (csvCell p.projectId) from rfl, h]
    rfl

/-- C10 witness: at the concrete zero-fit project, the Fit cell is "0"
and the empty projectId cell is empty. -/
theorem c10_csv_cells_witness :
    ((projectCsvRow c10Project).map csvCell)[8]? = some "0" ∧
    ((projectCsvRow c10Project).map csvCell)[0]? = some "" :=
  ⟨(c10_csv_cells c10Project).2.1 rfl, (c10_csv_cells c10Project).2.2.2 rfl⟩

theorem getField_ok (v : JSValue) (k : String) (h : nonNullish v = true) :
    ∃ w, getField v k = Except.ok w := by
  cases v with
  | null => simp [nonNullish] at h
  | undef => simp [nonNullish] at h
  | bool b => exact ⟨_, rfl⟩
  | num n => exact ⟨_, rfl⟩
  | str s => exact ⟨_, rfl⟩
  | arr l => exact ⟨_, rfl⟩
  | obj f => exact ⟨_, rfl⟩

theorem mapM_ok {α β : Type} (f : α → Except Unit β) (l : List α)
    (h : ∀ x ∈ l, ∃ y, f x = Except.ok y) : ∃ ys, l.mapM f = Except.ok ys := by
  induction l with
  | nil => exact ⟨[], rfl⟩
  | cons a l ih =>
    obtain ⟨y, hy⟩ := h a (List.mem_cons_self _ _)
    obtain ⟨ys, hys⟩ := ih (fun x hx => h x (List.mem_cons_of_mem _ hx))
    refine ⟨y :: ys, ?_⟩
    rw [List.mapM_cons, hy, hys]
    rfl

theorem projStep_ok (oids mids : List JSValue) (p : JSValue) (h : nonNullish p = true) :
    ∃ w, projStep oids mids p = Except.ok w := by
  obtain ⟨kw, hkw⟩ := getField_ok p "keywords" h
  obtain ⟨fd, hfd⟩ := getField_ok p "funding" h
  obtain ⟨mt, hmt⟩ := getField_ok p "materials" h
  obtain ⟨oi, hoi⟩ := getField_ok p "outreachIds" h
  obtain ⟨mi, hmi⟩ := getField_ok p "materialTaskIds" h
  unfold projStep
  rw [hkw, hfd, hmt, hoi, hmi]
  exact ⟨_, rfl⟩

theorem outStep_ok (pids : List JSValue) (o : JSValue) (h : nonNullish o = true) :
    ∃ w, outStep pids o = Except.ok w := by
  obtain ⟨dir, hdir⟩ := getField_ok o "directions" h
  obtain ⟨pj, hpj⟩ := getField_ok o "projectIds" h
  unfold outStep
  rw [hdir, hpj]
  exact ⟨_, rfl⟩

theorem matStep_ok (pids : List JSValue) (m : JSValue) (h : nonNullish m = true) :
    ∃ w, matStep pids m = Except.ok w := by
  obtain ⟨tp, htp⟩ := getField_ok m "targetProject" h
  unfold matStep
  rw [htp]
  exact ⟨_, rfl⟩

theorem collOk_arr (base input : JSValue) (name : String)
    (h : collOk base input name = true) :
    ∃ l, effColl base input name = JSValue.arr l ∧ ∀ x ∈ l, nonNullish x = true := by
  unfold collOk at h
  cases heff : effColl base input name <;> rw [heff] at h
  case arr l =>
    exact ⟨l, rfl, by simpa [List.all_eq_true] using h⟩
  all_goals simp at h

/-- C4 counterexample: `normalizeStore` is not total — on a document whose
`projects` array contains `null`, `p.id` throws a TypeError (line 506 of
the source). -/
theorem c4_counterexample :
    normalizeStoreJS seedJS0 "T" badProjectsDoc = Except.error () := rfl

/-- C4 (amended): `normalizeStore` never throws provided every element of
the effective projects/outreach/materials collections is neither `null`
nor `undefined` (and the effective decisions collection is an array);
throwing is possible only through such nullish elements. -/
theorem c4_normalize_total (base : JSValue) (now : String) (input : JSValue)
    (h : goodCollections base input = true) :
    (normalizeStoreJS base now input).isOk = true := by
  unfold goodCollections at h
  simp only [Bool.and_eq_true] at h
  obtain ⟨⟨⟨hpc, hoc⟩, hmc⟩, hdec⟩ := h
  obtain ⟨lp, hlp, hlpe⟩ := collOk_arr base input "projects" hpc
  obtain ⟨lo, hlo, hloe⟩ := collOk_arr base input "outreach" hoc
  obtain ⟨lm, hlm, hlme⟩ := collOk_arr base input "materials" hmc
  obtain ⟨pids, hpids⟩ := mapM_ok _ lp (fun x hx => getField_ok x "id" (hlpe x hx))
  obtain ⟨oids, hoids⟩ := mapM_ok _ lo (fun x hx => getField_ok x "id" (hloe x hx))
  obtain ⟨mids, hmids⟩ := mapM_ok _ lm (fun x hx => getField_ok x "id" (hlme x hx))
  obtain ⟨nps, hnps⟩ := mapM_ok (projStep oids mids) lp
    (fun x hx => projStep_ok oids mids x (hlpe x hx))
  obtain ⟨nos, hnos⟩ := mapM_ok (outStep pids) lo
    (fun x hx => outStep_ok pids x (hloe x hx))
  obtain ⟨nms, hnms⟩ := mapM_ok (matStep pids) lm
    (fun x hx => matStep_ok pids x (hlme x hx))
  obtain ⟨ld, hld⟩ : ∃ ld, effColl base input "decisions" = JSValue.arr ld := by
    cases hd2 : effColl base input "decisions" <;> rw [hd2] at hdec <;>
      first
      | exact ⟨_, rfl⟩
      | simp [isArr] at hdec
  unfold normalizeStoreJS
  rw [hlp, hlo, hlm]
  simp only [getArray, Except.bind]
  rw [hpids]
  simp only [Except.bind]
  rw [hoids]
  simp only [Except.bind]
  rw [hmids]
  simp only [Except.bind]
  rw [hnps]
  simp only [Except.bind]
  rw [hnos]
  simp only [Except.bind]
  rw [hnms]
  simp only [Except.bind]
  rw [if_pos hdec, hld]
  simp only [getArray, Except.bind]
  rfl

/-- C4 witness: a parsed document with four empty collections satisfies
the hypothesis and normalizes without throwing. -/
theorem c4_normalize_total_witness :
    goodCollections seedJS0 fourArraysDoc = true ∧
    (normalizeStoreJS seedJS0 "T" fourArraysDoc).isOk = true :=
  ⟨by decide, c4_normalize_total seedJS0 "T" fourArraysDoc (by decide)⟩

/-- C9 counterexample: persisted text present, parses, all four top-level
collections present and truthy — yet `loadStore` returns the seed, not
`normalizeStore(parsed)`, because the normalization throws and the
surrounding try/catch swallows it. -/
theorem c9_counterexample :
    loadStoreJS seedJS0 "T" (some "x") (fun _ => some badProjectsDoc) = seedJS0 ∧
    fourTruthy badProjectsDoc = true ∧
    normalizeStoreJS seedJS0 "T" badProjectsDoc = Except.error () := by
  refine ⟨rfl, by decide, rfl⟩

/-- C9 (amended): `loadStore` returns the seed when the persisted text is
absent or empty, fails to parse, any of the four collections is falsy, or
normalization of the parsed document throws; in every other case it
returns exactly the normalized parsed document.  It never throws (it is a
total function). -/
theorem c9_load_fallback (base : JSValue) (now : String) (raw : Option String)
    (parse : String → Option JSValue) :
    (raw = none → loadStoreJS base now raw parse = base) ∧
    (∀ r, raw = some r → r = "" → loadStoreJS base now raw parse = base) ∧
    (∀ r, raw = some r → r ≠ "" → parse r = none → loadStoreJS base now raw parse = base) ∧
    (∀ r parsed, raw = some r → r ≠ "" → parse r = some parsed →
      fourTruthy parsed = false → loadStoreJS base now raw parse = base) ∧
    (∀ r parsed, raw = some r → r ≠ "" → parse r = some parsed →
      fourTruthy parsed = true → normalizeStoreJS base now parsed = Except.error () →
      loadStoreJS base now raw parse = base) ∧
    (∀ r parsed w, raw = some r → r ≠ "" → parse r = some parsed →
      fourTruthy parsed = true → normalizeStoreJS base now parsed = Except.ok w →
      loadStoreJS base now raw parse = w) := by
  refine ⟨?_, ?_, ?_, ?_, ?_, ?_⟩
  · intro h
    subst h
    rfl
  · intro r hraw hr
    subst hraw
    subst hr
    rfl
  · intro r hraw hr hp
    subst hraw
    simp only [loadStoreJS]
    rw [if_neg (by simpa using hr), hp]
    rfl
  · intro r parsed hraw hr hp hf
    subst hraw
    simp only [loadStoreJS]
    rw [if_neg (by simpa using hr), hp]
    simp only [loadStoreParsed]
    unfold loadStoreGo
    rw [hf]
    rfl
  · intro r parsed hraw hr hp hf hn
    subst hraw
    simp only [loadStoreJS]
    rw [if_neg (by simpa using hr), hp]
    simp only [loadStoreParsed]
    unfold loadStoreGo
    rw [hf, hn]
    rfl
  · intro r parsed w hraw hr hp hf hn
    subst hraw
    simp only [loadStoreJS]
    rw [if_neg (by simpa using hr), hp]
    simp only [loadStoreParsed]
    unfold loadStoreGo
    rw [hf, hn]
    rfl

/-- C9 witness: at the concrete throwing document, the fallback branch of
the amended statement applies and the seed comes back. -/
theorem c9_load_fallback_witness :
    loadStoreJS seedJS0 "T" (some "x") (fun _ => some badProjectsDoc) = seedJS0 :=
  (c9_load_fallback seedJS0 "T" (some "x") (fun _ => some badProjectsDoc)).2.2.2.2.1
    "x" badProjectsDoc rfl (by decide) rfl (by decide) rfl
